import Mathlib

/-!
Shallow embedding of the Hermes HBC bytecode serializer
(lib/BCGen/HBC/BytecodeStream.cpp) and verification of its
natural-language specification.

The serializer runs the identical section sequence twice over a
`BytecodeModule`: once in LAYOUT mode (recording per-function offsets and
the total file length) and once in EMIT mode (producing the final bytes).
The stream is modelled as an explicit state (`SerState`) holding the
current write position `loc`, the bytes written so far `out`, the
layout/emit mode flag and the measured quantities
(`fileLength`, `stringTableBytes`, `debugInfoOffset`).  In addition the
state carries a ghost trace `events` of observation markers (section
start offsets, per-function body emissions and reuses); the trace never
influences any write and exists only so that theorems can speak about
where records start in the output.

Record layouts (field widths of the various binary headers) are declared
in BytecodeFileFormat.h, which is not part of the sources under
verification; the encoders below fix concrete byte layouts with the
correct shape (fixed width per record, the flag bits and counted fields
that the specification mentions are encoded for real).  All claims
proved here are independent of the particular constants chosen.
-/

set_option maxHeartbeats 1000000
set_option maxRecDepth 8000

namespace Hermes

/-- Little-endian 4-byte encoding of a 32-bit word (stored as a `Nat`). -/
def toBytesLE4 (n : Nat) : List Nat :=
  [n % 256, n / 256 % 256, n / 65536 % 256, n / 16777216 % 256]

/-- Two's-complement 32-bit reading of a `Nat` (C++ conversion of an
unsigned value to `int32_t`). -/
def toInt32 (n : Nat) : Int :=
  if n % 4294967296 < 2147483648 then ((n % 4294967296 : Nat) : Int)
  else ((n % 4294967296 : Nat) : Int) - 4294967296

/-- Unary minus on a 64-bit `size_t` value. -/
def usizeNeg (n : Nat) : Nat :=
  (18446744073709551616 - n % 18446744073709551616) % 18446744073709551616

/-- Encoding of an `int32_t` field via its unsigned 32-bit representation. -/
def i32Bytes (i : Int) : List Nat := toBytesLE4 (i.emod 4294967296).toNat

def boolBit (b : Bool) : Nat := if b then 1 else 0

def encodeU32Pair (p : Nat × Nat) : List Nat := toBytesLE4 p.1 ++ toBytesLE4 p.2

def encodeU32Triple (p : Nat × Nat × Nat) : List Nat :=
  toBytesLE4 p.1 ++ toBytesLE4 p.2.1 ++ toBytesLE4 p.2.2

/-- llvm::alignTo: round `x` up to the next multiple of `a`. -/
def alignTo (x a : Nat) : Nat := (x + a - 1) / a * a

/-- Number of zero bytes `pad a` appends at stream position `loc`. -/
def padAmount (loc a : Nat) : Nat := (a - loc % a) % a

/-- Modelled from the spec: the alignment boundary for per-function info
blocks (a format-defined constant from BytecodeFileFormat.h, which is
outside the sources; the spec leaves the exact value open). -/
def INFO_ALIGNMENT : Nat := 4

/-- Modelled from the spec: the file magic (format-defined constant from
BytecodeFileFormat.h, outside the sources). -/
def MAGIC : Nat := 0x1F1903C103BC1FC6

/-- Modelled from the spec: the bytecode format version (format-defined
constant from BytecodeFileFormat.h, outside the sources). -/
def BYTECODE_VERSION : Nat := 72

/-- One string descriptor: offset and length into the string storage. -/
structure StringTableEntry where
  off : Nat
  len : Nat
deriving DecidableEq, Repr

/-- Modelled from the spec: a descriptor overflows the compact encoding
when its offset or length exceeds the compact field widths (the widths
are format-defined constants from BytecodeFileFormat.h, outside the
sources). -/
def isOverflowed (e : StringTableEntry) : Bool :=
  decide (8388608 ≤ e.off) || decide (255 ≤ e.len)

/-- The per-function debug-offsets record (offsets into the debug blob). -/
structure DebugOffsets where
  sourceLocations : Nat
  lexicalData : Nat
deriving DecidableEq, Repr

/-- One compiled function of the module.  `offset` and `infoOffset` are
the two write targets of the layout pass. -/
structure BytecodeFunction where
  opcodes : List Nat
  jumpTables : List Nat
  exceptionHandlers : List (Nat × Nat × Nat)
  debugOffsets : DebugOffsets
  hasDebugInfo : Bool
  overflowed : Bool
  offset : Nat
  infoOffset : Nat
deriving DecidableEq, Repr

/-- BytecodeFunction::hasExceptionHandlers. -/
def BytecodeFunction.hasExceptionHandlers (f : BytecodeFunction) : Bool :=
  !f.exceptionHandlers.isEmpty

/-- The deduplication key: (opcode byte sequence, jump-table word sequence). -/
abbrev DedupKey := List Nat × List Nat

def dedupKey (f : BytecodeFunction) : DedupKey := (f.opcodes, f.jumpTables)

/-- The debug-info side data of the module. -/
structure DebugInfo where
  filenameTable : List StringTableEntry
  filenameStorage : List Nat
  files : List (Nat × Nat × Nat)
  lexicalDataOffset : Nat
  data : List Nat
deriving DecidableEq, Repr

/-- The in-memory bytecode module consumed by the serializer. -/
structure BytecodeModule where
  functionTable : List BytecodeFunction
  globalFunctionIndex : Nat
  stringTable : List StringTableEntry
  identifierHashes : List Nat
  stringStorage : List Nat
  regExpTable : List (Nat × Nat)
  regExpStorage : List Nat
  arrayBuffer : List Nat
  objectKeyBuffer : List Nat
  objectValueBuffer : List Nat
  cjsModuleTable : List (Nat × Nat)
  cjsModuleTableStatic : List (Nat × Nat)
  cjsModuleOffset : Nat
  debugInfo : DebugInfo
  bytecodeOptions : Nat
deriving DecidableEq, Repr

/-- The serializer options read by BytecodeStream.cpp. -/
structure BytecodeGenerationOptions where
  stripDebugInfoSection : Bool
  optimizationEnabled : Bool
  padFunctionBodiesPercent : Nat
deriving DecidableEq, Repr

/-- Ghost observation markers: where sections and records start in the
stream, and which function bodies are emitted or reused. -/
inductive Event where
  | regExpTable (off : Nat)
  | cjsTable (off : Nat)
  | debugInfoSec (off : Nat)
  | overflowHeader (off : Nat)
  | ehTable (off : Nat)
  | debugOffsetsRec (off : Nat)
  | bodyEmit (opcodes : List Nat) (jumpTables : List Nat) (off : Nat)
  | bodyReuse (opcodes : List Nat) (jumpTables : List Nat) (off : Nat)
deriving DecidableEq, Repr

/-- The serializer state: stream position, output bytes, mode flag, the
measured quantities, and the ghost event trace. -/
structure SerState where
  loc : Nat
  out : List Nat
  isLayout : Bool
  fileLength : Nat
  stringTableBytes : Nat
  debugInfoOffset : Nat
  events : List Event
deriving DecidableEq, Repr

/-- Append raw bytes to the stream (writeBinary / writeBinaryArray). -/
def writeBytes (s : SerState) (bs : List Nat) : SerState :=
  { s with loc := s.loc + bs.length, out := s.out ++ bs }

/-- pad(alignment): append zero bytes until `loc` is a multiple of `a`. -/
def pad (a : Nat) (s : SerState) : SerState :=
  writeBytes s (List.replicate (padAmount s.loc a) 0)

/-- Record a ghost observation; no bytes are written. -/
def emitEv (e : Event) (s : SerState) : SerState :=
  { s with events := s.events ++ [e] }

/-- The fixed-layout file header, with exactly the constructor arguments
of BytecodeFileHeader as built in BytecodeSerializer::serialize. -/
structure BytecodeFileHeader where
  magic : Nat
  version : Nat
  sourceHash : List Nat
  fileLength : Nat
  globalCodeIndex : Nat
  functionCount : Nat
  stringCount : Nat
  identifierCount : Nat
  stringTableBytes : Nat
  stringStorageSize : Nat
  regExpTableSize : Nat
  regExpStorageSize : Nat
  arrayBufferSize : Nat
  objKeyBufferSize : Nat
  objValueBufferSize : Nat
  cjsModuleOffset : Nat
  cjsModuleCount : Int
  debugInfoOffset : Nat
  options : Nat
deriving DecidableEq, Repr

/-- The CJS module count computed at the top of serialize():
`cjsModulesResolved ? -static.size() : dynamic.size()`, with C++
size_t negation and conversion to `int32_t` made explicit. -/
def cjsModuleCountOf (dyn stat : List (Nat × Nat)) : Int :=
  if stat.isEmpty then toInt32 dyn.length else toInt32 (usizeNeg stat.length)

/-- Build the file header from the module, the source hash and the
serializer state, exactly as serialize() does. -/
def mkFileHeader (BM : BytecodeModule) (sourceHash : List Nat) (s : SerState) :
    BytecodeFileHeader :=
  { magic := MAGIC
    version := BYTECODE_VERSION
    sourceHash := sourceHash
    fileLength := s.fileLength
    globalCodeIndex := BM.globalFunctionIndex
    functionCount := BM.functionTable.length
    stringCount := BM.stringTable.length
    identifierCount := BM.identifierHashes.length
    stringTableBytes := s.stringTableBytes
    stringStorageSize := BM.stringStorage.length
    regExpTableSize := BM.regExpTable.length
    regExpStorageSize := BM.regExpStorage.length
    arrayBufferSize := BM.arrayBuffer.length
    objKeyBufferSize := BM.objectKeyBuffer.length
    objValueBufferSize := BM.objectValueBuffer.length
    cjsModuleOffset := BM.cjsModuleOffset
    cjsModuleCount := cjsModuleCountOf BM.cjsModuleTable BM.cjsModuleTableStatic
    debugInfoOffset := s.debugInfoOffset
    options := BM.bytecodeOptions }

/-- Fixed-width byte encoding of the file header (96 bytes). -/
def encodeFileHeader (h : BytecodeFileHeader) : List Nat :=
  toBytesLE4 (h.magic % 4294967296) ++ toBytesLE4 (h.magic / 4294967296) ++
  toBytesLE4 h.version ++
  (h.sourceHash ++ List.replicate 20 0).take 20 ++
  toBytesLE4 h.fileLength ++
  toBytesLE4 h.globalCodeIndex ++
  toBytesLE4 h.functionCount ++
  toBytesLE4 h.stringCount ++
  toBytesLE4 h.identifierCount ++
  toBytesLE4 h.stringTableBytes ++
  toBytesLE4 h.stringStorageSize ++
  toBytesLE4 h.regExpTableSize ++
  toBytesLE4 h.regExpStorageSize ++
  toBytesLE4 h.arrayBufferSize ++
  toBytesLE4 h.objKeyBufferSize ++
  toBytesLE4 h.objValueBufferSize ++
  toBytesLE4 h.cjsModuleOffset ++
  i32Bytes h.cjsModuleCount ++
  toBytesLE4 h.debugInfoOffset ++
  toBytesLE4 h.options

/-- Fixed-width compact per-function header (SmallFuncHeader, 16 bytes).
Only the flag bits that BytecodeStream.cpp manipulates are encoded for
real; the remaining field bytes are format details outside the sources. -/
def encodeSmallFuncHeader (f : BytecodeFunction) : List Nat :=
  boolBit f.hasDebugInfo :: boolBit f.overflowed :: List.replicate 14 0

/-- Fixed-width large per-function header (FunctionHeader, 32 bytes). -/
def encodeLargeFuncHeader (f : BytecodeFunction) : List Nat :=
  boolBit f.hasDebugInfo :: boolBit f.overflowed :: List.replicate 30 0

/-- Compact string-table record (SmallStringTableEntry, 4 bytes): either
the inline (offset, length) or a reference to the overflow side table. -/
def encodeSmallStringEntry (e : StringTableEntry) (ovIdx : Nat) : List Nat :=
  if isOverflowed e then 255 :: (toBytesLE4 ovIdx).take 3
  else e.len % 256 :: (toBytesLE4 e.off).take 3

/-- Full-width string-table record (8 bytes), used for the overflow side
table and for the debug-info filename table. -/
def encodeFullStringEntry (e : StringTableEntry) : List Nat :=
  toBytesLE4 e.off ++ toBytesLE4 e.len

/-- The five-field debug-info section header. -/
structure DebugInfoHeader where
  filenameCount : Nat
  filenameStorageSize : Nat
  fileRegionCount : Nat
  lexicalDataOffset : Nat
  debugDataSize : Nat
deriving DecidableEq, Repr

def encodeDebugInfoHeader (h : DebugInfoHeader) : List Nat :=
  toBytesLE4 h.filenameCount ++ toBytesLE4 h.filenameStorageSize ++
  toBytesLE4 h.fileRegionCount ++ toBytesLE4 h.lexicalDataOffset ++
  toBytesLE4 h.debugDataSize

def encodeDebugOffsets (d : DebugOffsets) : List Nat :=
  toBytesLE4 d.sourceLocations ++ toBytesLE4 d.lexicalData

-- ========================== Function Table ==========================

/-- The in-place mutation of serializeFunctionTable: clear the
"has debug info" flag when debug stripping is configured. -/
def clearFn (strip : Bool) (f : BytecodeFunction) : BytecodeFunction :=
  if strip then { f with hasDebugInfo := false } else f

/-- BytecodeSerializer::serializeFunctionTable: for each function, clear
the debug flag in place when stripping, then write one compact header. -/
def serializeFunctionTable (strip : Bool) :
    List BytecodeFunction → SerState → List BytecodeFunction × SerState
  | [], s => ([], s)
  | f :: rest, s =>
    let f' := clearFn strip f
    let s' := writeBytes s (encodeSmallFuncHeader f')
    let r := serializeFunctionTable strip rest s'
    (f' :: r.1, r.2)

-- ========================== String Table ==========================

/-- The per-entry loop of serializeStringTable: write the compact record
for each descriptor, accumulating overflow entries as discovered. -/
def serializeStringEntries :
    List StringTableEntry → List (Nat × Nat) → SerState →
    List (Nat × Nat) × SerState
  | [], ov, s => (ov, s)
  | e :: rest, ov, s =>
    let s' := writeBytes s (encodeSmallStringEntry e ov.length)
    let ov' := if isOverflowed e then ov ++ [(e.off, e.len)] else ov
    serializeStringEntries rest ov' s'

/-- BytecodeSerializer::serializeStringTable: compact records, overflow
side table, then (uncounted) identifier hashes and string storage.
`stringTableBytes` measures the records written before the hashes. -/
def serializeStringTable (tbl : List StringTableEntry) (hashes : List Nat)
    (storage : List Nat) (s : SerState) : SerState :=
  let stringTableBegin := s.loc
  let r := serializeStringEntries tbl [] s
  let s2 := writeBytes r.2 (r.1.map encodeU32Pair).flatten
  let s3 := { s2 with stringTableBytes := s2.loc - stringTableBegin }
  let s4 := writeBytes s3 (hashes.map toBytesLE4).flatten
  writeBytes s4 storage

-- ========================== RegExps ==========================

/-- BytecodeSerializer::serializeRegExps. -/
def serializeRegExps (tbl : List (Nat × Nat)) (storage : List Nat)
    (s : SerState) : SerState :=
  let s1 := pad 4 s
  let s2 := emitEv (.regExpTable s1.loc) s1
  let s3 := writeBytes s2 (tbl.map encodeU32Pair).flatten
  writeBytes s3 storage

-- ===================== CommonJS Module Table ======================

/-- BytecodeSerializer::serializeCJSModuleTable: dynamic (source id,
function index) pairs in table order, then the entire static table. -/
def serializeCJSModuleTable (dyn stat : List (Nat × Nat)) (s : SerState) :
    SerState :=
  let s1 := pad 4 s
  let s2 := emitEv (.cjsTable s1.loc) s1
  let s3 := writeBytes s2 (dyn.map encodeU32Pair).flatten
  writeBytes s3 (stat.map encodeU32Pair).flatten

-- ========================= Array / Object Buffers =========================

/-- BytecodeSerializer::serializeArrayBuffer. -/
def serializeArrayBuffer (buf : List Nat) (s : SerState) : SerState :=
  writeBytes s buf

/-- BytecodeSerializer::serializeObjectBuffer. -/
def serializeObjectBuffer (keys vals : List Nat) (s : SerState) : SerState :=
  writeBytes (writeBytes s keys) vals

-- ==================== Exception Handler Table =====================

/-- BytecodeSerializer::serializeExceptionHandlerTable. -/
def serializeExceptionHandlerTable (f : BytecodeFunction) (s : SerState) :
    SerState :=
  if f.hasExceptionHandlers then
    let s1 := pad INFO_ALIGNMENT s
    let s2 := emitEv (.ehTable s1.loc) s1
    let s3 := writeBytes s2 (toBytesLE4 f.exceptionHandlers.length)
    writeBytes s3 (f.exceptionHandlers.map encodeU32Triple).flatten
  else s

/-- BytecodeSerializer::serializeDebugOffsets. -/
def serializeDebugOffsets (strip : Bool) (f : BytecodeFunction)
    (s : SerState) : SerState :=
  if strip || !f.hasDebugInfo then s
  else
    let s1 := pad INFO_ALIGNMENT s
    let s2 := emitEv (.debugOffsetsRec s1.loc) s1
    writeBytes s2 (encodeDebugOffsets f.debugOffsets)

-- ========================== DebugInfo ==========================

/-- BytecodeSerializer::serializeDebugInfo. -/
def serializeDebugInfo (strip : Bool) (di : DebugInfo) (s : SerState) :
    SerState :=
  let s1 := pad 4 s
  let s2 := emitEv (.debugInfoSec s1.loc) { s1 with debugInfoOffset := s1.loc }
  if strip then
    writeBytes s2 (encodeDebugInfoHeader ⟨0, 0, 0, 0, 0⟩)
  else
    let hdr : DebugInfoHeader :=
      ⟨di.filenameTable.length, di.filenameStorage.length, di.files.length,
       di.lexicalDataOffset, di.data.length⟩
    let s3 := writeBytes s2 (encodeDebugInfoHeader hdr)
    let s4 := writeBytes s3 (di.filenameTable.map encodeFullStringEntry).flatten
    let s5 := writeBytes s4 di.filenameStorage
    let s6 := writeBytes s5 (di.files.map encodeU32Triple).flatten
    writeBytes s6 di.data

-- ============================ Function bodies ============================

/-- The body write of serializeFunctionsBytecode for a non-reused
function: opcodes, pad to a word, jump tables, then the optional
percentage padding followed by another word pad. -/
def writeFunctionBody (o : BytecodeGenerationOptions) (f : BytecodeFunction)
    (s : SerState) : SerState :=
  let s1 := writeBytes s f.opcodes
  let s2 := pad 4 s1
  let s3 := writeBytes s2 (f.jumpTables.map toBytesLE4).flatten
  if o.padFunctionBodiesPercent ≠ 0 then
    let n := f.opcodes.length * o.padFunctionBodiesPercent / 100
    pad 4 (writeBytes s3 (List.replicate n 0))
  else s3

/-- Association-list lookup modelling llvm::DenseMap over DedupKey. -/
def lookupKey : List (DedupKey × Nat) → DedupKey → Option Nat
  | [], _ => none
  | (k, v) :: rest, k' => if k = k' then some v else lookupKey rest k'

/-- BytecodeSerializer::serializeFunctionsBytecode: the deduplicating
function-body encoder.  In LAYOUT mode the map from content to first
offset decides reuse and records offsets; in EMIT mode reuse is
re-derived from `offset < loc`. -/
def serializeFunctionsBytecode (o : BytecodeGenerationOptions) :
    List BytecodeFunction → List (DedupKey × Nat) → SerState →
    List BytecodeFunction × SerState
  | [], _, s => ([], s)
  | f :: rest, m, s =>
    if o.optimizationEnabled then
      if s.isLayout then
        match lookupKey m (dedupKey f) with
        | some v =>
          let f' := { f with offset := v }
          let s' := emitEv (.bodyReuse f.opcodes f.jumpTables v) s
          let r := serializeFunctionsBytecode o rest m s'
          (f' :: r.1, r.2)
        | none =>
          let f' := { f with offset := s.loc }
          let s' := writeFunctionBody o f'
            (emitEv (.bodyEmit f.opcodes f.jumpTables s.loc) s)
          let r := serializeFunctionsBytecode o rest
            (m ++ [(dedupKey f, s.loc)]) s'
          (f' :: r.1, r.2)
      else
        if f.offset < s.loc then
          let s' := emitEv (.bodyReuse f.opcodes f.jumpTables f.offset) s
          let r := serializeFunctionsBytecode o rest m s'
          (f :: r.1, r.2)
        else
          let s' := writeFunctionBody o f
            (emitEv (.bodyEmit f.opcodes f.jumpTables s.loc) s)
          let r := serializeFunctionsBytecode o rest m s'
          (f :: r.1, r.2)
    else
      let f' := if s.isLayout then { f with offset := s.loc } else f
      let s' := writeFunctionBody o f'
        (emitEv (.bodyEmit f.opcodes f.jumpTables s.loc) s)
      let r := serializeFunctionsBytecode o rest m s'
      (f' :: r.1, r.2)

-- ============================ Function info ============================

/-- BytecodeSerializer::serializeFunctionInfo: record the aligned info
offset during layout, then write the optional overflow header, the
optional exception-handler table and the optional debug offsets. -/
def serializeFunctionInfo (o : BytecodeGenerationOptions)
    (f : BytecodeFunction) (s : SerState) : BytecodeFunction × SerState :=
  let f1 := if s.isLayout then
      { f with infoOffset := alignTo s.loc INFO_ALIGNMENT } else f
  let s1 := if f1.overflowed then
      let sa := pad INFO_ALIGNMENT s
      let sb := emitEv (.overflowHeader sa.loc) sa
      writeBytes sb (encodeLargeFuncHeader f1)
    else s
  let s2 := serializeExceptionHandlerTable f1 s1
  (f1, serializeDebugOffsets o.stripDebugInfoSection f1 s2)

/-- The per-function info loop in BytecodeSerializer::serialize. -/
def serializeFunctionInfoAll (o : BytecodeGenerationOptions) :
    List BytecodeFunction → SerState → List BytecodeFunction × SerState
  | [], s => ([], s)
  | f :: rest, s =>
    let r := serializeFunctionInfo o f s
    let r2 := serializeFunctionInfoAll o rest r.2
    (r.1 :: r2.1, r2.2)

-- ============================ File ============================

/-- One full pass of BytecodeSerializer::serialize (the section sequence
shared by the LAYOUT and EMIT phases). -/
def serializePass (BM : BytecodeModule) (sourceHash : List Nat)
    (o : BytecodeGenerationOptions) (s : SerState) :
    BytecodeModule × SerState :=
  let s1 := writeBytes s (encodeFileHeader (mkFileHeader BM sourceHash s))
  let r2 := serializeFunctionTable o.stripDebugInfoSection BM.functionTable s1
  let s3 := serializeStringTable BM.stringTable BM.identifierHashes
    BM.stringStorage r2.2
  let s4 := serializeArrayBuffer BM.arrayBuffer s3
  let s5 := serializeObjectBuffer BM.objectKeyBuffer BM.objectValueBuffer s4
  let s6 := serializeRegExps BM.regExpTable BM.regExpStorage s5
  let s7 := serializeCJSModuleTable BM.cjsModuleTable BM.cjsModuleTableStatic s6
  let r8 := serializeFunctionsBytecode o r2.1 [] s7
  let r9 := serializeFunctionInfoAll o r8.1 r8.2
  let s10 := serializeDebugInfo o.stripDebugInfoSection BM.debugInfo r9.2
  ({ BM with functionTable := r9.1 }, s10)

/-- The initial serializer state (LAYOUT mode, position 0). -/
def initState : SerState :=
  { loc := 0, out := [], isLayout := true, fileLength := 0,
    stringTableBytes := 0, debugInfoOffset := 0, events := [] }

/-- BytecodeSerializer::finishLayout: record the total file length,
switch to EMIT mode and reset the stream (the layout output bytes and
ghost trace are discarded). -/
def finishLayout (s : SerState) : SerState :=
  { s with
    fileLength := s.loc
    isLayout := false
    loc := 0
    out := []
    events := [] }

/-- BytecodeSerializer::serialize: run the section sequence; after the
LAYOUT pass, finish the layout and run the identical sequence once more
in EMIT mode. -/
def serialize (BM : BytecodeModule) (sourceHash : List Nat)
    (o : BytecodeGenerationOptions) : BytecodeModule × SerState :=
  let r := serializePass BM sourceHash o initState
  if r.2.isLayout then
    serializePass r.1 sourceHash o (finishLayout r.2)
  else r

-- ============================ Writer lemmas ============================

@[simp] theorem writeBytes_loc (s : SerState) (bs : List Nat) :
    (writeBytes s bs).loc = s.loc + bs.length := rfl

@[simp] theorem writeBytes_out (s : SerState) (bs : List Nat) :
    (writeBytes s bs).out = s.out ++ bs := rfl

@[simp] theorem writeBytes_isLayout (s : SerState) (bs : List Nat) :
    (writeBytes s bs).isLayout = s.isLayout := rfl

@[simp] theorem writeBytes_fileLength (s : SerState) (bs : List Nat) :
    (writeBytes s bs).fileLength = s.fileLength := rfl

@[simp] theorem writeBytes_stringTableBytes (s : SerState) (bs : List Nat) :
    (writeBytes s bs).stringTableBytes = s.stringTableBytes := rfl

@[simp] theorem writeBytes_debugInfoOffset (s : SerState) (bs : List Nat) :
    (writeBytes s bs).debugInfoOffset = s.debugInfoOffset := rfl

@[simp] theorem writeBytes_events (s : SerState) (bs : List Nat) :
    (writeBytes s bs).events = s.events := rfl

@[simp] theorem emitEv_loc (e : Event) (s : SerState) :
    (emitEv e s).loc = s.loc := rfl

@[simp] theorem emitEv_out (e : Event) (s : SerState) :
    (emitEv e s).out = s.out := rfl

@[simp] theorem emitEv_isLayout (e : Event) (s : SerState) :
    (emitEv e s).isLayout = s.isLayout := rfl

@[simp] theorem emitEv_fileLength (e : Event) (s : SerState) :
    (emitEv e s).fileLength = s.fileLength := rfl

@[simp] theorem emitEv_stringTableBytes (e : Event) (s : SerState) :
    (emitEv e s).stringTableBytes = s.stringTableBytes := rfl

@[simp] theorem emitEv_debugInfoOffset (e : Event) (s : SerState) :
    (emitEv e s).debugInfoOffset = s.debugInfoOffset := rfl

@[simp] theorem emitEv_events (e : Event) (s : SerState) :
    (emitEv e s).events = s.events ++ [e] := rfl

@[simp] theorem pad_loc (a : Nat) (s : SerState) :
    (pad a s).loc = s.loc + padAmount s.loc a := by
  simp [pad]

@[simp] theorem pad_out (a : Nat) (s : SerState) :
    (pad a s).out = s.out ++ List.replicate (padAmount s.loc a) 0 := rfl

@[simp] theorem pad_isLayout (a : Nat) (s : SerState) :
    (pad a s).isLayout = s.isLayout := rfl

@[simp] theorem pad_fileLength (a : Nat) (s : SerState) :
    (pad a s).fileLength = s.fileLength := rfl

@[simp] theorem pad_stringTableBytes (a : Nat) (s : SerState) :
    (pad a s).stringTableBytes = s.stringTableBytes := rfl

@[simp] theorem pad_debugInfoOffset (a : Nat) (s : SerState) :
    (pad a s).debugInfoOffset = s.debugInfoOffset := rfl

@[simp] theorem pad_events (a : Nat) (s : SerState) :
    (pad a s).events = s.events := rfl

-- ============================ Alignment arithmetic ============================

theorem padAmount_mod4 (x : Nat) : (x + padAmount x 4) % 4 = 0 := by
  simp only [padAmount]
  omega

theorem alignTo4_eq (x : Nat) : alignTo x 4 = x + padAmount x 4 := by
  simp only [alignTo, padAmount]
  omega

theorem alignTo4_mod (x : Nat) : alignTo x 4 % 4 = 0 := by
  simp only [alignTo]
  omega

-- ============================ Encoder lengths ============================

@[simp] theorem toBytesLE4_length (n : Nat) : (toBytesLE4 n).length = 4 := rfl

@[simp] theorem i32Bytes_length (i : Int) : (i32Bytes i).length = 4 := rfl

@[simp] theorem encodeU32Pair_length (p : Nat × Nat) :
    (encodeU32Pair p).length = 8 := rfl

@[simp] theorem encodeU32Triple_length (p : Nat × Nat × Nat) :
    (encodeU32Triple p).length = 12 := rfl

@[simp] theorem encodeSmallFuncHeader_length (f : BytecodeFunction) :
    (encodeSmallFuncHeader f).length = 16 := rfl

@[simp] theorem encodeLargeFuncHeader_length (f : BytecodeFunction) :
    (encodeLargeFuncHeader f).length = 32 := rfl

@[simp] theorem encodeSmallStringEntry_length (e : StringTableEntry) (k : Nat) :
    (encodeSmallStringEntry e k).length = 4 := by
  simp only [encodeSmallStringEntry]
  split <;> rfl

@[simp] theorem encodeFullStringEntry_length (e : StringTableEntry) :
    (encodeFullStringEntry e).length = 8 := rfl

@[simp] theorem encodeDebugInfoHeader_length (h : DebugInfoHeader) :
    (encodeDebugInfoHeader h).length = 20 := rfl

@[simp] theorem encodeDebugOffsets_length (d : DebugOffsets) :
    (encodeDebugOffsets d).length = 8 := rfl

theorem encodeFileHeader_length (h : BytecodeFileHeader) :
    (encodeFileHeader h).length = 96 := by
  have h20 : ((h.sourceHash ++ List.replicate 20 0).take 20).length = 20 := by
    simp [List.length_take]
  simp [encodeFileHeader, h20]

/-- Length of the flattened encodings of a list, when every element
encodes to the same number of bytes. -/
theorem length_flatten_map_const {α : Type} (f : α → List Nat) (c : Nat)
    (hf : ∀ x, (f x).length = c) (l : List α) :
    ((l.map f).flatten).length = c * l.length := by
  induction l with
  | nil => simp
  | cons x xs ih => simp [ih, hf, Nat.mul_add, Nat.add_comm, Nat.mul_one]

-- ============================ Writer composition ============================

theorem writeBytes_nil (s : SerState) : writeBytes s [] = s := by
  cases s; simp [writeBytes]

theorem writeBytes_writeBytes (s : SerState) (a b : List Nat) :
    writeBytes (writeBytes s a) b = writeBytes s (a ++ b) := by
  cases s; simp [writeBytes, Nat.add_assoc]

theorem writeBytes_stb (s : SerState) (x : Nat) (b : List Nat) :
    writeBytes { s with stringTableBytes := x } b =
      { writeBytes s b with stringTableBytes := x } := by
  cases s; simp [writeBytes]

-- ============================ CJS count arithmetic ============================

/-- With a non-empty static table of realistic size, the serialized CJS
module count is the negated static table size. -/
theorem cjsCount_static (dyn stat : List (Nat × Nat)) (h1 : stat ≠ [])
    (h2 : stat.length ≤ 2147483648) :
    cjsModuleCountOf dyn stat = -(stat.length : Int) := by
  have hne : stat.isEmpty = false := by
    cases stat with
    | nil => exact absurd rfl h1
    | cons a l => rfl
  have hpos : 1 ≤ stat.length := by
    cases stat with
    | nil => exact absurd rfl h1
    | cons a l => simp
  simp only [cjsModuleCountOf, hne, Bool.false_eq_true, if_false, toInt32, usizeNeg]
  have hmod : stat.length % 18446744073709551616 = stat.length :=
    Nat.mod_eq_of_lt (by omega)
  rw [hmod]
  have h3 : (18446744073709551616 - stat.length) % 18446744073709551616 =
      18446744073709551616 - stat.length := Nat.mod_eq_of_lt (by omega)
  rw [h3]
  have h4 : (18446744073709551616 - stat.length) % 4294967296 =
      4294967296 - stat.length := by omega
  rw [h4]
  have h5 : ¬ (4294967296 - stat.length < 2147483648) := by omega
  rw [if_neg h5]
  omega

/-- With an empty static table, the serialized CJS module count is the
dynamic table size. -/
theorem cjsCount_dynamic (dyn stat : List (Nat × Nat)) (h1 : stat = [])
    (h2 : dyn.length < 2147483648) :
    cjsModuleCountOf dyn stat = (dyn.length : Int) := by
  subst h1
  simp only [cjsModuleCountOf, List.isEmpty_nil, if_true, toInt32]
  have hmod : dyn.length % 4294967296 = dyn.length := Nat.mod_eq_of_lt (by omega)
  rw [hmod, if_pos (by omega)]

-- ============================ String table lemmas ============================

/-- The overflow side table accumulated over a descriptor list. -/
def ovEntries (tbl : List StringTableEntry) : List (Nat × Nat) :=
  (tbl.filter (fun e => isOverflowed e)).map (fun e => (e.off, e.len))

theorem serializeStringEntries_spec (tbl : List StringTableEntry) :
    ∀ (ov : List (Nat × Nat)) (s : SerState),
    ∃ δ : List Nat,
      serializeStringEntries tbl ov s = (ov ++ ovEntries tbl, writeBytes s δ) ∧
      δ.length = 4 * tbl.length := by
  induction tbl with
  | nil =>
    intro ov s
    refine ⟨[], ?_, rfl⟩
    simp [serializeStringEntries, ovEntries, writeBytes_nil]
  | cons e rest ih =>
    intro ov s
    by_cases hov : isOverflowed e
    · obtain ⟨δ, heq, hlen⟩ :=
        ih (ov ++ [(e.off, e.len)]) (writeBytes s (encodeSmallStringEntry e ov.length))
      refine ⟨encodeSmallStringEntry e ov.length ++ δ, ?_, by simp [hlen]; ring⟩
      rw [serializeStringEntries, if_pos hov, heq, writeBytes_writeBytes]
      simp [ovEntries, hov]
    · obtain ⟨δ, heq, hlen⟩ :=
        ih ov (writeBytes s (encodeSmallStringEntry e ov.length))
      refine ⟨encodeSmallStringEntry e ov.length ++ δ, ?_, by simp [hlen]; ring⟩
      rw [serializeStringEntries, if_neg hov, heq, writeBytes_writeBytes]
      simp [ovEntries, hov]

theorem serializeStringTable_spec (tbl : List StringTableEntry)
    (hashes storage : List Nat) (s : SerState) :
    ∃ δ : List Nat,
      serializeStringTable tbl hashes storage s =
        { writeBytes s δ with
            stringTableBytes := 4 * tbl.length + 8 * (ovEntries tbl).length } ∧
      δ.length = 4 * tbl.length + 8 * (ovEntries tbl).length
        + 4 * hashes.length + storage.length := by
  obtain ⟨δ1, heq, hlen⟩ := serializeStringEntries_spec tbl [] s
  have hov := length_flatten_map_const encodeU32Pair 8 encodeU32Pair_length
    (ovEntries tbl)
  have hh := length_flatten_map_const toBytesLE4 4 toBytesLE4_length hashes
  refine ⟨δ1 ++ ((ovEntries tbl).map encodeU32Pair).flatten
    ++ (hashes.map toBytesLE4).flatten ++ storage, ?_, by
      simp [hlen, hov, hh]; ring⟩
  unfold serializeStringTable
  rw [heq]
  cases s with
  | mk loc out isL fl stb dio ev =>
    simp [writeBytes, hlen, hov, hh, List.append_assoc, Nat.add_assoc]

-- ============================ Section normal forms ============================

theorem serializeFunctionTable_eq (strip : Bool) (t : List BytecodeFunction) :
    ∀ s : SerState,
    serializeFunctionTable strip t s =
      (t.map (clearFn strip),
       writeBytes s
         ((t.map (fun f => encodeSmallFuncHeader (clearFn strip f))).flatten)) := by
  induction t with
  | nil => intro s; simp [serializeFunctionTable, writeBytes_nil]
  | cons f rest ih =>
    intro s
    simp [serializeFunctionTable, ih, writeBytes_writeBytes]

theorem serializeRegExps_eq (tbl : List (Nat × Nat)) (stor : List Nat)
    (s : SerState) :
    serializeRegExps tbl stor s =
      writeBytes (emitEv (.regExpTable ((pad 4 s).loc)) (pad 4 s))
        ((tbl.map encodeU32Pair).flatten ++ stor) := by
  simp [serializeRegExps, writeBytes_writeBytes]

theorem serializeCJSModuleTable_eq (dyn stat : List (Nat × Nat)) (s : SerState) :
    serializeCJSModuleTable dyn stat s =
      writeBytes (emitEv (.cjsTable ((pad 4 s).loc)) (pad 4 s))
        ((dyn.map encodeU32Pair).flatten ++ (stat.map encodeU32Pair).flatten) := by
  simp [serializeCJSModuleTable, writeBytes_writeBytes]

/-- The bytes the debug-info section writes after its event marker. -/
def debugBytes (strip : Bool) (di : DebugInfo) : List Nat :=
  if strip then encodeDebugInfoHeader ⟨0, 0, 0, 0, 0⟩
  else
    encodeDebugInfoHeader
      ⟨di.filenameTable.length, di.filenameStorage.length, di.files.length,
       di.lexicalDataOffset, di.data.length⟩ ++
    (di.filenameTable.map encodeFullStringEntry).flatten ++
    di.filenameStorage ++ (di.files.map encodeU32Triple).flatten ++ di.data

theorem serializeDebugInfo_eq (strip : Bool) (di : DebugInfo) (s : SerState) :
    serializeDebugInfo strip di s =
      writeBytes (emitEv (.debugInfoSec ((pad 4 s).loc))
        { pad 4 s with debugInfoOffset := (pad 4 s).loc })
        (debugBytes strip di) := by
  cases strip <;>
    simp [serializeDebugInfo, debugBytes, writeBytes_writeBytes]

-- ============================ Stream extension ============================

/-- `Appends s t`: `t` extends the output of `s` and its position moved
by exactly the appended length (writes are append-only). -/
def Appends (s t : SerState) : Prop :=
  ∃ δ : List Nat, t.out = s.out ++ δ ∧ t.loc = s.loc + δ.length

theorem Appends.rfl (s : SerState) : Appends s s :=
  ⟨[], by simp⟩

theorem Appends.trans {s t u : SerState} (h1 : Appends s t)
    (h2 : Appends t u) : Appends s u := by
  obtain ⟨a, ha1, ha2⟩ := h1
  obtain ⟨b, hb1, hb2⟩ := h2
  exact ⟨a ++ b, by simp [hb1, ha1], by simp [hb2, ha2, Nat.add_assoc]⟩

theorem Appends.writeBytes (s : SerState) (bs : List Nat) :
    Appends s (writeBytes s bs) := ⟨bs, by simp, by simp⟩

theorem Appends.pad (a : Nat) (s : SerState) : Appends s (pad a s) :=
  ⟨List.replicate (padAmount s.loc a) 0, by simp, by simp⟩

theorem Appends.emitEv (e : Event) (s : SerState) :
    Appends s (emitEv e s) := ⟨[], by simp⟩

theorem Appends.sync {s t : SerState} (h : Appends s t)
    (hs : s.loc = s.out.length) : t.loc = t.out.length := by
  obtain ⟨δ, h1, h2⟩ := h
  simp [h1, h2, hs]

-- ============================ Function content ============================

/-- The immutable content of a function: everything except the two
offsets that the layout pass records. -/
def content (f : BytecodeFunction) :
    List Nat × List Nat × List (Nat × Nat × Nat) × DebugOffsets × Bool × Bool :=
  (f.opcodes, f.jumpTables, f.exceptionHandlers, f.debugOffsets,
   f.hasDebugInfo, f.overflowed)

theorem fn_ext (f g : BytecodeFunction) (hc : content f = content g)
    (ho : f.offset = g.offset) (hi : f.infoOffset = g.infoOffset) :
    f = g := by
  cases f; cases g
  simp only [content, Prod.mk.injEq] at hc
  simp_all

theorem content_setOffset (f : BytecodeFunction) (w : Nat) :
    content { f with offset := w } = content f := rfl

theorem content_setInfoOffset (f : BytecodeFunction) (w : Nat) :
    content { f with infoOffset := w } = content f := rfl

theorem content_clearFn {f g : BytecodeFunction} (strip : Bool)
    (h : content f = content g) :
    content (clearFn strip f) = content (clearFn strip g) := by
  cases f; cases g
  simp only [content, Prod.mk.injEq] at h
  cases strip <;> simp_all [clearFn, content]

theorem clearFn_offset (strip : Bool) (f : BytecodeFunction) :
    (clearFn strip f).offset = f.offset := by
  cases strip <;> simp [clearFn]

theorem clearFn_infoOffset (strip : Bool) (f : BytecodeFunction) :
    (clearFn strip f).infoOffset = f.infoOffset := by
  cases strip <;> simp [clearFn]

theorem clearFn_clearFn (strip : Bool) (f : BytecodeFunction) :
    clearFn strip (clearFn strip f) = clearFn strip f := by
  cases strip <;> simp [clearFn]

theorem clearFn_dedupKey (strip : Bool) (f : BytecodeFunction) :
    dedupKey (clearFn strip f) = dedupKey f := by
  cases strip <;> simp [clearFn, dedupKey]

theorem encodeSmallFuncHeader_content {f g : BytecodeFunction}
    (h : content f = content g) :
    encodeSmallFuncHeader f = encodeSmallFuncHeader g := by
  cases f; cases g
  simp only [content, Prod.mk.injEq] at h
  simp_all [encodeSmallFuncHeader]

-- ============================ Body write normal form ============================

/-- The stream position after writing one (non-reused) function body
starting at position `x`: a pure function of the body content. -/
def bodyEnd (o : BytecodeGenerationOptions) (opc jt : List Nat) (x : Nat) :
    Nat :=
  let x1 := x + opc.length
  let x2 := x1 + padAmount x1 4
  let x3 := x2 + 4 * jt.length
  if o.padFunctionBodiesPercent ≠ 0 then
    let x4 := x3 + opc.length * o.padFunctionBodiesPercent / 100
    x4 + padAmount x4 4
  else x3

theorem writeFunctionBody_loc (o : BytecodeGenerationOptions)
    (f : BytecodeFunction) (s : SerState) :
    (writeFunctionBody o f s).loc = bodyEnd o f.opcodes f.jumpTables s.loc := by
  have hjt := length_flatten_map_const toBytesLE4 4 toBytesLE4_length f.jumpTables
  by_cases hp : o.padFunctionBodiesPercent ≠ 0 <;>
    simp [writeFunctionBody, bodyEnd, hp, hjt, Nat.add_assoc]

theorem writeFunctionBody_events (o : BytecodeGenerationOptions)
    (f : BytecodeFunction) (s : SerState) :
    (writeFunctionBody o f s).events = s.events := by
  by_cases hp : o.padFunctionBodiesPercent ≠ 0 <;>
    simp [writeFunctionBody, hp]

theorem writeFunctionBody_isLayout (o : BytecodeGenerationOptions)
    (f : BytecodeFunction) (s : SerState) :
    (writeFunctionBody o f s).isLayout = s.isLayout := by
  by_cases hp : o.padFunctionBodiesPercent ≠ 0 <;>
    simp [writeFunctionBody, hp]

theorem writeFunctionBody_fileLength (o : BytecodeGenerationOptions)
    (f : BytecodeFunction) (s : SerState) :
    (writeFunctionBody o f s).fileLength = s.fileLength := by
  by_cases hp : o.padFunctionBodiesPercent ≠ 0 <;>
    simp [writeFunctionBody, hp]

theorem writeFunctionBody_stb (o : BytecodeGenerationOptions)
    (f : BytecodeFunction) (s : SerState) :
    (writeFunctionBody o f s).stringTableBytes = s.stringTableBytes := by
  by_cases hp : o.padFunctionBodiesPercent ≠ 0 <;>
    simp [writeFunctionBody, hp]

theorem writeFunctionBody_dio (o : BytecodeGenerationOptions)
    (f : BytecodeFunction) (s : SerState) :
    (writeFunctionBody o f s).debugInfoOffset = s.debugInfoOffset := by
  by_cases hp : o.padFunctionBodiesPercent ≠ 0 <;>
    simp [writeFunctionBody, hp]

theorem writeFunctionBody_appends (o : BytecodeGenerationOptions)
    (f : BytecodeFunction) (s : SerState) :
    Appends s (writeFunctionBody o f s) := by
  by_cases hp : o.padFunctionBodiesPercent ≠ 0 <;>
    unfold writeFunctionBody <;> simp only [hp, if_true, if_false, ite_not]
  · exact ((((Appends.writeBytes _ _).trans (Appends.pad _ _)).trans
      (Appends.writeBytes _ _)).trans (Appends.writeBytes _ _)).trans
      (Appends.pad _ _)
  · exact ((Appends.writeBytes _ _).trans (Appends.pad _ _)).trans
      (Appends.writeBytes _ _)

/-- Writing a body depends only on the body content and the position:
states with equal positions advance equally. -/
theorem bodyEnd_gt (o : BytecodeGenerationOptions) (opc jt : List Nat)
    (x : Nat) (h : opc ≠ [] ∨ jt ≠ []) : x < bodyEnd o opc jt x := by
  have h1 : 1 ≤ opc.length ∨ 1 ≤ jt.length := by
    rcases h with h | h
    · exact Or.inl (by cases opc with | nil => exact absurd rfl h | cons a l => simp)
    · exact Or.inr (by cases jt with | nil => exact absurd rfl h | cons a l => simp)
  by_cases hp : o.padFunctionBodiesPercent ≠ 0 <;>
    simp only [bodyEnd, hp, if_true, if_false, ite_not] <;> omega

theorem bodyEnd_ge (o : BytecodeGenerationOptions) (opc jt : List Nat)
    (x : Nat) : x ≤ bodyEnd o opc jt x := by
  by_cases hp : o.padFunctionBodiesPercent ≠ 0 <;>
    simp only [bodyEnd, hp, if_true, if_false, ite_not] <;> omega

-- ============================ Event classification ============================

/-- The alignment obligation of each recorded event: info-region records
are INFO_ALIGNMENT-aligned, section starts are 4-aligned. -/
def evAligned : Event → Prop
  | .regExpTable off => off % 4 = 0
  | .cjsTable off => off % 4 = 0
  | .debugInfoSec off => off % 4 = 0
  | .overflowHeader off => off % INFO_ALIGNMENT = 0
  | .ehTable off => off % INFO_ALIGNMENT = 0
  | .debugOffsetsRec off => off % INFO_ALIGNMENT = 0
  | .bodyEmit _ _ _ => True
  | .bodyReuse _ _ _ => True

def isBody : Event → Bool
  | .bodyEmit _ _ _ => true
  | .bodyReuse _ _ _ => true
  | _ => false

def isDbgRec : Event → Bool
  | .debugOffsetsRec _ => true
  | _ => false

/-- The (content, offset) pairs of the body emissions in a trace. -/
def bodyEmitsOf : List Event → List (DedupKey × Nat)
  | [] => []
  | Event.bodyEmit opc jt off :: r => ((opc, jt), off) :: bodyEmitsOf r
  | Event.regExpTable _ :: r => bodyEmitsOf r
  | Event.cjsTable _ :: r => bodyEmitsOf r
  | Event.debugInfoSec _ :: r => bodyEmitsOf r
  | Event.overflowHeader _ :: r => bodyEmitsOf r
  | Event.ehTable _ :: r => bodyEmitsOf r
  | Event.debugOffsetsRec _ :: r => bodyEmitsOf r
  | Event.bodyReuse _ _ _ :: r => bodyEmitsOf r

/-- The per-function reuse decisions in a trace: `false` for an emitted
body, `true` for a reused one. -/
def bodyFlagsOf : List Event → List Bool
  | [] => []
  | Event.bodyEmit _ _ _ :: r => false :: bodyFlagsOf r
  | Event.bodyReuse _ _ _ :: r => true :: bodyFlagsOf r
  | Event.regExpTable _ :: r => bodyFlagsOf r
  | Event.cjsTable _ :: r => bodyFlagsOf r
  | Event.debugInfoSec _ :: r => bodyFlagsOf r
  | Event.overflowHeader _ :: r => bodyFlagsOf r
  | Event.ehTable _ :: r => bodyFlagsOf r
  | Event.debugOffsetsRec _ :: r => bodyFlagsOf r

theorem bodyEmitsOf_append (a b : List Event) :
    bodyEmitsOf (a ++ b) = bodyEmitsOf a ++ bodyEmitsOf b := by
  induction a with
  | nil => simp [bodyEmitsOf]
  | cons e r ih => cases e <;> simp [bodyEmitsOf, ih]

theorem bodyFlagsOf_append (a b : List Event) :
    bodyFlagsOf (a ++ b) = bodyFlagsOf a ++ bodyFlagsOf b := by
  induction a with
  | nil => simp [bodyFlagsOf]
  | cons e r ih => cases e <;> simp [bodyFlagsOf, ih]

theorem bodyEmitsOf_nonbody (l : List Event)
    (h : ∀ e ∈ l, isBody e = false) : bodyEmitsOf l = [] := by
  induction l with
  | nil => rfl
  | cons e r ih =>
    have he := h e (by simp)
    have hr := ih (fun x hx => h x (by simp [hx]))
    cases e <;> simp_all [bodyEmitsOf, isBody]

theorem bodyFlagsOf_nonbody (l : List Event)
    (h : ∀ e ∈ l, isBody e = false) : bodyFlagsOf l = [] := by
  induction l with
  | nil => rfl
  | cons e r ih =>
    have he := h e (by simp)
    have hr := ih (fun x hx => h x (by simp [hx]))
    cases e <;> simp_all [bodyFlagsOf, isBody]

/-- The property of every event appended by a non-body section: aligned,
not a body marker, and no debug-offset record when stripping. -/
def SectionEv (strip : Bool) (e : Event) : Prop :=
  evAligned e ∧ isBody e = false ∧ (strip = true → isDbgRec e = false)

theorem padLoc_mod4 (s : SerState) : (pad 4 s).loc % 4 = 0 := by
  simp only [pad_loc]
  exact padAmount_mod4 s.loc

theorem padLoc_modIA (s : SerState) :
    (pad INFO_ALIGNMENT s).loc % INFO_ALIGNMENT = 0 := by
  simp only [pad_loc]
  exact padAmount_mod4 s.loc

-- ============================ Per-section event lemmas ============================

theorem serializeStringTable_events (tbl : List StringTableEntry)
    (hashes storage : List Nat) (s : SerState) :
    (serializeStringTable tbl hashes storage s).events = s.events := by
  obtain ⟨δ, heq, -⟩ := serializeStringTable_spec tbl hashes storage s
  rw [heq]
  simp

theorem serializeRegExps_sectionEv (strip : Bool) (tbl : List (Nat × Nat))
    (stor : List Nat) (s : SerState) :
    ∃ ε, (serializeRegExps tbl stor s).events = s.events ++ ε ∧
      ∀ e ∈ ε, SectionEv strip e := by
  rw [serializeRegExps_eq]
  refine ⟨[.regExpTable ((pad 4 s).loc)], by simp, ?_⟩
  intro e he
  simp only [List.mem_singleton] at he
  subst he
  exact ⟨padLoc_mod4 s, rfl, fun _ => rfl⟩

theorem serializeCJSModuleTable_sectionEv (strip : Bool)
    (dyn stat : List (Nat × Nat)) (s : SerState) :
    ∃ ε, (serializeCJSModuleTable dyn stat s).events = s.events ++ ε ∧
      ∀ e ∈ ε, SectionEv strip e := by
  rw [serializeCJSModuleTable_eq]
  refine ⟨[.cjsTable ((pad 4 s).loc)], by simp, ?_⟩
  intro e he
  simp only [List.mem_singleton] at he
  subst he
  exact ⟨padLoc_mod4 s, rfl, fun _ => rfl⟩

theorem serializeDebugInfo_sectionEv (strip strip2 : Bool) (di : DebugInfo)
    (s : SerState) :
    ∃ ε, (serializeDebugInfo strip di s).events = s.events ++ ε ∧
      ∀ e ∈ ε, SectionEv strip2 e := by
  rw [serializeDebugInfo_eq]
  refine ⟨[.debugInfoSec ((pad 4 s).loc)], by simp [emitEv], ?_⟩
  intro e he
  simp only [List.mem_singleton] at he
  subst he
  exact ⟨padLoc_mod4 s, rfl, fun _ => rfl⟩

theorem serializeExceptionHandlerTable_sectionEv (strip : Bool)
    (f : BytecodeFunction) (s : SerState) :
    ∃ ε, (serializeExceptionHandlerTable f s).events = s.events ++ ε ∧
      ∀ e ∈ ε, SectionEv strip e := by
  unfold serializeExceptionHandlerTable
  by_cases hh : f.hasExceptionHandlers
  · rw [if_pos hh]
    refine ⟨[.ehTable ((pad INFO_ALIGNMENT s).loc)], by simp, ?_⟩
    intro e he
    simp only [List.mem_singleton] at he
    subst he
    exact ⟨padLoc_modIA s, rfl, fun _ => rfl⟩
  · rw [if_neg hh]
    exact ⟨[], by simp, by simp⟩

theorem serializeDebugOffsets_sectionEv (strip : Bool)
    (f : BytecodeFunction) (s : SerState) :
    ∃ ε, (serializeDebugOffsets strip f s).events = s.events ++ ε ∧
      ∀ e ∈ ε, SectionEv strip e := by
  unfold serializeDebugOffsets
  by_cases hc : (strip || !f.hasDebugInfo) = true
  · rw [if_pos hc]
    exact ⟨[], by simp, by simp⟩
  · rw [if_neg hc]
    have hstrip : strip = false := by
      cases strip
      · rfl
      · simp at hc
    refine ⟨[.debugOffsetsRec ((pad INFO_ALIGNMENT s).loc)], by simp, ?_⟩
    intro e he
    simp only [List.mem_singleton] at he
    subst he
    refine ⟨padLoc_modIA s, rfl, fun h => ?_⟩
    rw [hstrip] at h
    cases h

/-- The layout-mode info-offset update applied to the function at the
head of serializeFunctionInfo. -/
def infoFn1 (o : BytecodeGenerationOptions) (f : BytecodeFunction)
    (s : SerState) : BytecodeFunction :=
  if s.isLayout then { f with infoOffset := alignTo s.loc INFO_ALIGNMENT }
  else f

/-- The overflow-header step of serializeFunctionInfo. -/
def ovStep (f1 : BytecodeFunction) (s : SerState) : SerState :=
  if f1.overflowed then
    writeBytes (emitEv (.overflowHeader ((pad INFO_ALIGNMENT s).loc))
      (pad INFO_ALIGNMENT s)) (encodeLargeFuncHeader f1)
  else s

theorem serializeFunctionInfo_eq (o : BytecodeGenerationOptions)
    (f : BytecodeFunction) (s : SerState) :
    serializeFunctionInfo o f s =
      (infoFn1 o f s,
       serializeDebugOffsets o.stripDebugInfoSection (infoFn1 o f s)
         (serializeExceptionHandlerTable (infoFn1 o f s)
           (ovStep (infoFn1 o f s) s))) := rfl

theorem ovStep_sectionEv (strip : Bool) (f1 : BytecodeFunction)
    (s : SerState) :
    ∃ ε, (ovStep f1 s).events = s.events ++ ε ∧
      ∀ e ∈ ε, SectionEv strip e := by
  unfold ovStep
  by_cases hov : f1.overflowed
  · rw [if_pos hov]
    refine ⟨[.overflowHeader ((pad INFO_ALIGNMENT s).loc)], by simp, ?_⟩
    intro e he
    simp only [List.mem_singleton] at he
    subst he
    exact ⟨padLoc_modIA s, rfl, fun _ => rfl⟩
  · rw [if_neg hov]
    exact ⟨[], by simp, by simp⟩

theorem serializeFunctionInfo_sectionEv (o : BytecodeGenerationOptions)
    (f : BytecodeFunction) (s : SerState) :
    ∃ ε, (serializeFunctionInfo o f s).2.events = s.events ++ ε ∧
      ∀ e ∈ ε, SectionEv o.stripDebugInfoSection e := by
  rw [serializeFunctionInfo_eq]
  obtain ⟨ε0, h0, p0⟩ := ovStep_sectionEv o.stripDebugInfoSection
    (infoFn1 o f s) s
  obtain ⟨ε1, h1, p1⟩ := serializeExceptionHandlerTable_sectionEv
    o.stripDebugInfoSection (infoFn1 o f s) (ovStep (infoFn1 o f s) s)
  obtain ⟨ε2, h2, p2⟩ := serializeDebugOffsets_sectionEv
    o.stripDebugInfoSection (infoFn1 o f s)
    (serializeExceptionHandlerTable (infoFn1 o f s) (ovStep (infoFn1 o f s) s))
  refine ⟨ε0 ++ ε1 ++ ε2, ?_, ?_⟩
  · rw [h2, h1, h0]
    simp
  · intro e he
    simp only [List.mem_append] at he
    rcases he with (he | he) | he
    · exact p0 e he
    · exact p1 e he
    · exact p2 e he

-- ============================ Info-section loc formulas ============================

/-- Position after the optional overflow header. -/
def ovEnd (f : BytecodeFunction) (x : Nat) : Nat :=
  if f.overflowed then x + padAmount x INFO_ALIGNMENT + 32 else x

/-- Position after the optional exception-handler table. -/
def ehEnd (f : BytecodeFunction) (x : Nat) : Nat :=
  if f.hasExceptionHandlers then
    x + padAmount x INFO_ALIGNMENT + 4 + 12 * f.exceptionHandlers.length
  else x

/-- Position after the optional debug-offsets record. -/
def dbgEnd (strip : Bool) (f : BytecodeFunction) (x : Nat) : Nat :=
  if strip || !f.hasDebugInfo then x else x + padAmount x INFO_ALIGNMENT + 8

/-- Position after one function's whole info block. -/
def infoEnd (strip : Bool) (f : BytecodeFunction) (x : Nat) : Nat :=
  dbgEnd strip f (ehEnd f (ovEnd f x))

theorem content_fields {f g : BytecodeFunction} (h : content f = content g) :
    f.opcodes = g.opcodes ∧ f.jumpTables = g.jumpTables ∧
    f.exceptionHandlers = g.exceptionHandlers ∧
    f.debugOffsets = g.debugOffsets ∧ f.hasDebugInfo = g.hasDebugInfo ∧
    f.overflowed = g.overflowed := by
  cases f; cases g
  simp only [content, Prod.mk.injEq] at h
  simp_all

theorem ovEnd_content {f g : BytecodeFunction} (h : content f = content g)
    (x : Nat) : ovEnd f x = ovEnd g x := by
  obtain ⟨-, -, -, -, -, h6⟩ := content_fields h
  simp [ovEnd, h6]

theorem ehEnd_content {f g : BytecodeFunction} (h : content f = content g)
    (x : Nat) : ehEnd f x = ehEnd g x := by
  obtain ⟨-, -, h3, -, -, -⟩ := content_fields h
  simp [ehEnd, BytecodeFunction.hasExceptionHandlers, h3]

theorem dbgEnd_content (strip : Bool) {f g : BytecodeFunction}
    (h : content f = content g) (x : Nat) :
    dbgEnd strip f x = dbgEnd strip g x := by
  obtain ⟨-, -, -, -, h5, -⟩ := content_fields h
  simp [dbgEnd, h5]

theorem infoEnd_content (strip : Bool) {f g : BytecodeFunction}
    (h : content f = content g) (x : Nat) :
    infoEnd strip f x = infoEnd strip g x := by
  rw [infoEnd, infoEnd, ovEnd_content h, ehEnd_content h, dbgEnd_content strip h]

theorem content_infoFn1 (o : BytecodeGenerationOptions)
    (f : BytecodeFunction) (s : SerState) :
    content (infoFn1 o f s) = content f := by
  unfold infoFn1
  split <;> rfl

theorem infoFn1_offset (o : BytecodeGenerationOptions)
    (f : BytecodeFunction) (s : SerState) :
    (infoFn1 o f s).offset = f.offset := by
  unfold infoFn1
  split <;> rfl

theorem ovStep_loc (f1 : BytecodeFunction) (s : SerState) :
    (ovStep f1 s).loc = ovEnd f1 s.loc := by
  unfold ovStep ovEnd
  split <;> simp [Nat.add_assoc]

theorem serializeExceptionHandlerTable_loc (f1 : BytecodeFunction)
    (s : SerState) :
    (serializeExceptionHandlerTable f1 s).loc = ehEnd f1 s.loc := by
  unfold serializeExceptionHandlerTable ehEnd
  have := length_flatten_map_const encodeU32Triple 12 encodeU32Triple_length
    f1.exceptionHandlers
  split <;> simp [this, Nat.add_assoc]

theorem serializeDebugOffsets_loc (strip : Bool) (f1 : BytecodeFunction)
    (s : SerState) :
    (serializeDebugOffsets strip f1 s).loc = dbgEnd strip f1 s.loc := by
  unfold serializeDebugOffsets dbgEnd
  split <;> simp [Nat.add_assoc]

theorem serializeFunctionInfo_loc (o : BytecodeGenerationOptions)
    (f : BytecodeFunction) (s : SerState) :
    (serializeFunctionInfo o f s).2.loc =
      infoEnd o.stripDebugInfoSection f s.loc := by
  rw [serializeFunctionInfo_eq, infoEnd]
  rw [show ((infoFn1 o f s,
      serializeDebugOffsets o.stripDebugInfoSection (infoFn1 o f s)
        (serializeExceptionHandlerTable (infoFn1 o f s)
          (ovStep (infoFn1 o f s) s))).2) =
    serializeDebugOffsets o.stripDebugInfoSection (infoFn1 o f s)
      (serializeExceptionHandlerTable (infoFn1 o f s)
        (ovStep (infoFn1 o f s) s)) from rfl]
  rw [serializeDebugOffsets_loc, serializeExceptionHandlerTable_loc, ovStep_loc]
  rw [ovEnd_content (content_infoFn1 o f s),
    ehEnd_content (content_infoFn1 o f s),
    dbgEnd_content o.stripDebugInfoSection (content_infoFn1 o f s)]

-- ============================ Info-section state facts ============================

theorem ovStep_fields (f1 : BytecodeFunction) (s : SerState) :
    (ovStep f1 s).isLayout = s.isLayout ∧
    (ovStep f1 s).fileLength = s.fileLength ∧
    (ovStep f1 s).stringTableBytes = s.stringTableBytes ∧
    (ovStep f1 s).debugInfoOffset = s.debugInfoOffset := by
  unfold ovStep
  split <;> simp

theorem serializeExceptionHandlerTable_fields (f1 : BytecodeFunction)
    (s : SerState) :
    (serializeExceptionHandlerTable f1 s).isLayout = s.isLayout ∧
    (serializeExceptionHandlerTable f1 s).fileLength = s.fileLength ∧
    (serializeExceptionHandlerTable f1 s).stringTableBytes =
      s.stringTableBytes ∧
    (serializeExceptionHandlerTable f1 s).debugInfoOffset =
      s.debugInfoOffset := by
  unfold serializeExceptionHandlerTable
  split <;> simp

theorem serializeDebugOffsets_fields (strip : Bool) (f1 : BytecodeFunction)
    (s : SerState) :
    (serializeDebugOffsets strip f1 s).isLayout = s.isLayout ∧
    (serializeDebugOffsets strip f1 s).fileLength = s.fileLength ∧
    (serializeDebugOffsets strip f1 s).stringTableBytes =
      s.stringTableBytes ∧
    (serializeDebugOffsets strip f1 s).debugInfoOffset =
      s.debugInfoOffset := by
  unfold serializeDebugOffsets
  split <;> simp

theorem serializeFunctionInfo_fields (o : BytecodeGenerationOptions)
    (f : BytecodeFunction) (s : SerState) :
    (serializeFunctionInfo o f s).2.isLayout = s.isLayout ∧
    (serializeFunctionInfo o f s).2.fileLength = s.fileLength ∧
    (serializeFunctionInfo o f s).2.stringTableBytes = s.stringTableBytes ∧
    (serializeFunctionInfo o f s).2.debugInfoOffset = s.debugInfoOffset := by
  rw [serializeFunctionInfo_eq]
  obtain ⟨a1, a2, a3, a4⟩ := ovStep_fields (infoFn1 o f s) s
  obtain ⟨b1, b2, b3, b4⟩ := serializeExceptionHandlerTable_fields
    (infoFn1 o f s) (ovStep (infoFn1 o f s) s)
  obtain ⟨c1, c2, c3, c4⟩ := serializeDebugOffsets_fields
    o.stripDebugInfoSection (infoFn1 o f s)
    (serializeExceptionHandlerTable (infoFn1 o f s) (ovStep (infoFn1 o f s) s))
  exact ⟨by rw [c1, b1, a1], by rw [c2, b2, a2], by rw [c3, b3, a3],
    by rw [c4, b4, a4]⟩

theorem ovStep_appends (f1 : BytecodeFunction) (s : SerState) :
    Appends s (ovStep f1 s) := by
  unfold ovStep
  split
  · exact ((Appends.pad _ _).trans (Appends.emitEv _ _)).trans
      (Appends.writeBytes _ _)
  · exact Appends.rfl s

theorem serializeExceptionHandlerTable_appends (f1 : BytecodeFunction)
    (s : SerState) : Appends s (serializeExceptionHandlerTable f1 s) := by
  unfold serializeExceptionHandlerTable
  split
  · exact (((Appends.pad _ _).trans (Appends.emitEv _ _)).trans
      (Appends.writeBytes _ _)).trans (Appends.writeBytes _ _)
  · exact Appends.rfl s

theorem serializeDebugOffsets_appends (strip : Bool) (f1 : BytecodeFunction)
    (s : SerState) : Appends s (serializeDebugOffsets strip f1 s) := by
  unfold serializeDebugOffsets
  split
  · exact Appends.rfl s
  · exact ((Appends.pad _ _).trans (Appends.emitEv _ _)).trans
      (Appends.writeBytes _ _)

theorem serializeFunctionInfo_appends (o : BytecodeGenerationOptions)
    (f : BytecodeFunction) (s : SerState) :
    Appends s (serializeFunctionInfo o f s).2 := by
  rw [serializeFunctionInfo_eq]
  exact ((ovStep_appends (infoFn1 o f s) s).trans
    (serializeExceptionHandlerTable_appends _ _)).trans
    (serializeDebugOffsets_appends _ _ _)

theorem serializeFunctionInfoAll_sectionEv (o : BytecodeGenerationOptions)
    (t : List BytecodeFunction) : ∀ s : SerState,
    ∃ ε, (serializeFunctionInfoAll o t s).2.events = s.events ++ ε ∧
      ∀ e ∈ ε, SectionEv o.stripDebugInfoSection e := by
  induction t with
  | nil => intro s; exact ⟨[], by simp [serializeFunctionInfoAll], by simp⟩
  | cons f rest ih =>
    intro s
    obtain ⟨ε1, he1, hp1⟩ := serializeFunctionInfo_sectionEv o f s
    obtain ⟨ε2, he2, hp2⟩ := ih (serializeFunctionInfo o f s).2
    refine ⟨ε1 ++ ε2, ?_, ?_⟩
    · show (serializeFunctionInfoAll o rest (serializeFunctionInfo o f s).2).2.events = _
      rw [he2, he1, List.append_assoc]
    · intro e he
      rcases List.mem_append.mp he with he | he
      · exact hp1 e he
      · exact hp2 e he

-- ============================ Info-all fold lemmas ============================

/-- Position after the whole function-info region. -/
def infoAllEnd (strip : Bool) : List BytecodeFunction → Nat → Nat
  | [], x => x
  | f :: rest, x => infoAllEnd strip rest (infoEnd strip f x)

theorem infoAllEnd_content (strip : Bool) {t1 t2 : List BytecodeFunction}
    (h : List.Forall₂ (fun f g => content f = content g) t1 t2) :
    ∀ x, infoAllEnd strip t1 x = infoAllEnd strip t2 x := by
  induction h with
  | nil => intro x; rfl
  | cons hfg _ ih =>
    intro x
    show infoAllEnd strip _ (infoEnd strip _ x) = infoAllEnd strip _ _
    rw [infoEnd_content strip hfg, ih]
    rfl

theorem serializeFunctionInfoAll_loc (o : BytecodeGenerationOptions)
    (t : List BytecodeFunction) : ∀ s : SerState,
    (serializeFunctionInfoAll o t s).2.loc =
      infoAllEnd o.stripDebugInfoSection t s.loc := by
  induction t with
  | nil => intro s; rfl
  | cons f rest ih =>
    intro s
    show (serializeFunctionInfoAll o rest (serializeFunctionInfo o f s).2).2.loc = _
    rw [ih, serializeFunctionInfo_loc]
    rfl

theorem serializeFunctionInfoAll_fields (o : BytecodeGenerationOptions)
    (t : List BytecodeFunction) : ∀ s : SerState,
    (serializeFunctionInfoAll o t s).2.isLayout = s.isLayout ∧
    (serializeFunctionInfoAll o t s).2.fileLength = s.fileLength ∧
    (serializeFunctionInfoAll o t s).2.stringTableBytes = s.stringTableBytes ∧
    (serializeFunctionInfoAll o t s).2.debugInfoOffset = s.debugInfoOffset := by
  induction t with
  | nil => intro s; exact ⟨rfl, rfl, rfl, rfl⟩
  | cons f rest ih =>
    intro s
    obtain ⟨a1, a2, a3, a4⟩ := serializeFunctionInfo_fields o f s
    obtain ⟨b1, b2, b3, b4⟩ := ih (serializeFunctionInfo o f s).2
    exact ⟨by rw [← a1]; exact b1, by rw [← a2]; exact b2,
      by rw [← a3]; exact b3, by rw [← a4]; exact b4⟩

theorem serializeFunctionInfoAll_appends (o : BytecodeGenerationOptions)
    (t : List BytecodeFunction) : ∀ s : SerState,
    Appends s (serializeFunctionInfoAll o t s).2 := by
  induction t with
  | nil => intro s; exact Appends.rfl s
  | cons f rest ih =>
    intro s
    exact (serializeFunctionInfo_appends o f s).trans
      (ih (serializeFunctionInfo o f s).2)

theorem serializeFunctionInfoAll_emit (o : BytecodeGenerationOptions)
    (t : List BytecodeFunction) : ∀ s : SerState, s.isLayout = false →
    (serializeFunctionInfoAll o t s).1 = t := by
  induction t with
  | nil => intro s _; rfl
  | cons f rest ih =>
    intro s hs
    have h1 : (serializeFunctionInfo o f s).1 = f := by
      rw [serializeFunctionInfo_eq]
      show infoFn1 o f s = f
      unfold infoFn1
      rw [hs]
      rfl
    have h2 : (serializeFunctionInfo o f s).2.isLayout = false := by
      rw [(serializeFunctionInfo_fields o f s).1, hs]
    show ((serializeFunctionInfo o f s).1 ::
      (serializeFunctionInfoAll o rest (serializeFunctionInfo o f s).2).1, _).1 = _
    rw [h1, ih _ h2]

theorem serializeFunctionInfoAll_shape (o : BytecodeGenerationOptions)
    (t : List BytecodeFunction) : ∀ s : SerState,
    List.Forall₂ (fun f g => ∃ w, g = { f with infoOffset := w }) t
      (serializeFunctionInfoAll o t s).1 := by
  induction t with
  | nil => intro s; exact List.Forall₂.nil
  | cons f rest ih =>
    intro s
    refine List.Forall₂.cons ?_ (ih (serializeFunctionInfo o f s).2)
    rw [serializeFunctionInfo_eq]
    show ∃ w, infoFn1 o f s = { f with infoOffset := w }
    unfold infoFn1
    by_cases hs : s.isLayout = true
    · rw [if_pos hs]
      exact ⟨alignTo s.loc INFO_ALIGNMENT, rfl⟩
    · rw [if_neg hs]
      exact ⟨f.infoOffset, by cases f; rfl⟩

theorem serializeFunctionInfoAll_aligned (o : BytecodeGenerationOptions)
    (t : List BytecodeFunction) : ∀ s : SerState, s.isLayout = true →
    ∀ g ∈ (serializeFunctionInfoAll o t s).1,
      g.infoOffset % INFO_ALIGNMENT = 0 := by
  induction t with
  | nil => intro s _ g hg; cases hg
  | cons f rest ih =>
    intro s hs g hg
    have hL : (serializeFunctionInfo o f s).2.isLayout = true := by
      rw [(serializeFunctionInfo_fields o f s).1, hs]
    rcases List.mem_cons.mp hg with hg | hg
    · subst hg
      rw [serializeFunctionInfo_eq]
      show (infoFn1 o f s).infoOffset % INFO_ALIGNMENT = 0
      unfold infoFn1
      rw [if_pos hs]
      show alignTo s.loc INFO_ALIGNMENT % INFO_ALIGNMENT = 0
      exact alignTo4_mod s.loc
    · exact ih (serializeFunctionInfo o f s).2 hL g hg

-- ============================ Info-section determinism ============================

theorem encodeLargeFuncHeader_content {f g : BytecodeFunction}
    (h : content f = content g) :
    encodeLargeFuncHeader f = encodeLargeFuncHeader g := by
  obtain ⟨-, -, -, -, h5, h6⟩ := content_fields h
  simp [encodeLargeFuncHeader, h5, h6]

theorem ovStep_content {f1 g1 : BytecodeFunction} (h : content f1 = content g1)
    (s : SerState) : ovStep f1 s = ovStep g1 s := by
  obtain ⟨-, -, -, -, -, h6⟩ := content_fields h
  unfold ovStep
  rw [h6, encodeLargeFuncHeader_content h]

theorem serializeExceptionHandlerTable_content {f1 g1 : BytecodeFunction}
    (h : content f1 = content g1) (s : SerState) :
    serializeExceptionHandlerTable f1 s =
      serializeExceptionHandlerTable g1 s := by
  obtain ⟨-, -, h3, -, -, -⟩ := content_fields h
  unfold serializeExceptionHandlerTable
  rw [show f1.hasExceptionHandlers = g1.hasExceptionHandlers by
    simp [BytecodeFunction.hasExceptionHandlers, h3], h3]

theorem serializeDebugOffsets_content (strip : Bool)
    {f1 g1 : BytecodeFunction} (h : content f1 = content g1) (s : SerState) :
    serializeDebugOffsets strip f1 s = serializeDebugOffsets strip g1 s := by
  obtain ⟨-, -, -, h4, h5, -⟩ := content_fields h
  unfold serializeDebugOffsets
  rw [h4, h5]

theorem serializeFunctionInfo_det (o : BytecodeGenerationOptions)
    {f g : BytecodeFunction} (hc : content f = content g)
    (ho : f.offset = g.offset) (s : SerState) (hs : s.isLayout = true) :
    serializeFunctionInfo o f s = serializeFunctionInfo o g s := by
  have h1 : infoFn1 o f s = infoFn1 o g s := by
    unfold infoFn1
    rw [if_pos hs, if_pos hs]
    exact fn_ext _ _ (by simp only [content_setInfoOffset]; exact hc)
      (by show f.offset = g.offset; exact ho) rfl
  rw [serializeFunctionInfo_eq, serializeFunctionInfo_eq, h1]

theorem serializeFunctionInfoAll_det (o : BytecodeGenerationOptions)
    {t1 t2 : List BytecodeFunction}
    (h : List.Forall₂ (fun f g => content f = content g ∧ f.offset = g.offset)
      t1 t2) :
    ∀ s : SerState, s.isLayout = true →
    serializeFunctionInfoAll o t1 s = serializeFunctionInfoAll o t2 s := by
  induction h with
  | nil => intro s _; rfl
  | @cons f g tl1 tl2 hfg htl ih =>
    intro s hs
    have hstep := serializeFunctionInfo_det o hfg.1 hfg.2 s hs
    have hL : (serializeFunctionInfo o f s).2.isLayout = true := by
      rw [(serializeFunctionInfo_fields o f s).1, hs]
    show ((serializeFunctionInfo o f s).1 ::
        (serializeFunctionInfoAll o tl1 (serializeFunctionInfo o f s).2).1,
        (serializeFunctionInfoAll o tl1 (serializeFunctionInfo o f s).2).2) =
      ((serializeFunctionInfo o g s).1 ::
        (serializeFunctionInfoAll o tl2 (serializeFunctionInfo o g s).2).1,
        (serializeFunctionInfoAll o tl2 (serializeFunctionInfo o g s).2).2)
    rw [hstep, ih _ (by rw [← hstep]; exact hL)]

-- ============================ Dedup map lemmas ============================

theorem lookup_append_some {m : List (DedupKey × Nat)} {k : DedupKey} {v : Nat}
    (h : lookupKey m k = some v) (l : List (DedupKey × Nat)) :
    lookupKey (m ++ l) k = some v := by
  induction m with
  | nil => cases h
  | cons kv rest ih =>
    obtain ⟨k0, v0⟩ := kv
    rw [lookupKey] at h
    rw [List.cons_append, lookupKey]
    by_cases hk : k0 = k
    · rw [if_pos hk] at h ⊢
      exact h
    · rw [if_neg hk] at h ⊢
      exact ih h

theorem lookup_append_none {m : List (DedupKey × Nat)} {k : DedupKey}
    (h : lookupKey m k = none) (l : List (DedupKey × Nat)) :
    lookupKey (m ++ l) k = lookupKey l k := by
  induction m with
  | nil => rfl
  | cons kv rest ih =>
    obtain ⟨k0, v0⟩ := kv
    rw [lookupKey] at h
    by_cases hk : k0 = k
    · rw [if_pos hk] at h
      cases h
    · rw [if_neg hk] at h
      rw [List.cons_append, lookupKey, if_neg hk]
      exact ih h

theorem lookup_head (k : DedupKey) (v : Nat) (l : List (DedupKey × Nat)) :
    lookupKey ((k, v) :: l) k = some v := by
  rw [lookupKey, if_pos rfl]

theorem lookup_mem {m : List (DedupKey × Nat)} {k : DedupKey} {v : Nat}
    (h : lookupKey m k = some v) : (k, v) ∈ m := by
  induction m with
  | nil => cases h
  | cons kv rest ih =>
    obtain ⟨k0, v0⟩ := kv
    rw [lookupKey] at h
    by_cases hk : k0 = k
    · rw [if_pos hk] at h
      cases h
      exact hk ▸ List.mem_cons_self _ _
    · rw [if_neg hk] at h
      exact List.mem_cons_of_mem _ (ih h)

theorem lookup_none_not_mem {m : List (DedupKey × Nat)} {k : DedupKey}
    (h : lookupKey m k = none) : k ∉ m.map Prod.fst := by
  induction m with
  | nil => simp
  | cons kv rest ih =>
    obtain ⟨k0, v0⟩ := kv
    rw [lookupKey] at h
    by_cases hk : k0 = k
    · rw [if_pos hk] at h
      cases h
    · rw [if_neg hk] at h
      simp only [List.map_cons, List.mem_cons]
      rintro (hc | hc)
      · exact hk hc.symm
      · exact ih h hc

/-- With strictly increasing values, a value determines its key. -/
theorem lookup_inj {m : List (DedupKey × Nat)}
    (hpw : List.Pairwise (fun a b => a.2 < b.2) m) {k1 k2 : DedupKey} {v : Nat}
    (h1 : lookupKey m k1 = some v) (h2 : lookupKey m k2 = some v) :
    k1 = k2 := by
  induction m with
  | nil => cases h1
  | cons kv rest ih =>
    obtain ⟨k0, v0⟩ := kv
    rw [lookupKey] at h1 h2
    rcases List.pairwise_cons.mp hpw with ⟨hhd, htl⟩
    by_cases ha : k0 = k1 <;> by_cases hb : k0 = k2
    · rw [← ha, ← hb]
    · rw [if_pos ha] at h1
      rw [if_neg hb] at h2
      cases h1
      have := hhd _ (lookup_mem h2)
      simp at this
    · rw [if_neg ha] at h1
      rw [if_pos hb] at h2
      cases h2
      have := hhd _ (lookup_mem h1)
      simp at this
    · rw [if_neg ha] at h1
      rw [if_neg hb] at h2
      exact ih htl h1 h2

theorem filter_keys_singleton {m : List (DedupKey × Nat)}
    (hnd : (m.map Prod.fst).Nodup) {k : DedupKey} {v : Nat}
    (h : lookupKey m k = some v) :
    m.filter (fun kv => decide (kv.1 = k)) = [(k, v)] := by
  induction m with
  | nil => cases h
  | cons kv rest ih =>
    obtain ⟨k0, v0⟩ := kv
    simp only [List.map_cons, List.nodup_cons] at hnd
    rw [lookupKey] at h
    by_cases hk : k0 = k
    · rw [if_pos hk] at h
      cases h
      subst hk
      have hnone : ∀ x ∈ rest, ¬(x.1 = k0) := by
        intro x hx hxk
        exact hnd.1 (hxk ▸ List.mem_map_of_mem Prod.fst hx)
      rw [List.filter_cons, if_pos (by simp)]
      congr 1
      rw [List.filter_eq_nil_iff]
      intro x hx
      simp [hnone x hx]
    · rw [if_neg hk] at h
      rw [List.filter_cons, if_neg (by simp [hk])]
      exact ih hnd.2 h

-- ============================ Bytecode branch equations ============================

theorem bc_nil (o : BytecodeGenerationOptions) (m : List (DedupKey × Nat))
    (s : SerState) : serializeFunctionsBytecode o [] m s = ([], s) := rfl

theorem bc_cons_reuse_layout {o : BytecodeGenerationOptions}
    (f : BytecodeFunction) (rest : List BytecodeFunction)
    {m : List (DedupKey × Nat)} {s : SerState} {v : Nat}
    (hopt : o.optimizationEnabled = true) (hlay : s.isLayout = true)
    (hm : lookupKey m (dedupKey f) = some v) :
    serializeFunctionsBytecode o (f :: rest) m s =
      ({ f with offset := v } ::
        (serializeFunctionsBytecode o rest m
          (emitEv (.bodyReuse f.opcodes f.jumpTables v) s)).1,
       (serializeFunctionsBytecode o rest m
          (emitEv (.bodyReuse f.opcodes f.jumpTables v) s)).2) := by
  simp only [serializeFunctionsBytecode, hopt, hlay, hm, if_true]

theorem bc_cons_insert_layout {o : BytecodeGenerationOptions}
    (f : BytecodeFunction) (rest : List BytecodeFunction)
    {m : List (DedupKey × Nat)} {s : SerState}
    (hopt : o.optimizationEnabled = true) (hlay : s.isLayout = true)
    (hm : lookupKey m (dedupKey f) = none) :
    serializeFunctionsBytecode o (f :: rest) m s =
      ({ f with offset := s.loc } ::
        (serializeFunctionsBytecode o rest (m ++ [(dedupKey f, s.loc)])
          (writeFunctionBody o { f with offset := s.loc }
            (emitEv (.bodyEmit f.opcodes f.jumpTables s.loc) s))).1,
       (serializeFunctionsBytecode o rest (m ++ [(dedupKey f, s.loc)])
          (writeFunctionBody o { f with offset := s.loc }
            (emitEv (.bodyEmit f.opcodes f.jumpTables s.loc) s))).2) := by
  simp only [serializeFunctionsBytecode, hopt, hlay, hm, if_true]

theorem bc_cons_reuse_emit {o : BytecodeGenerationOptions}
    (f : BytecodeFunction) (rest : List BytecodeFunction)
    {m : List (DedupKey × Nat)} {s : SerState}
    (hopt : o.optimizationEnabled = true) (hlay : s.isLayout = false)
    (hofs : f.offset < s.loc) :
    serializeFunctionsBytecode o (f :: rest) m s =
      (f :: (serializeFunctionsBytecode o rest m
          (emitEv (.bodyReuse f.opcodes f.jumpTables f.offset) s)).1,
       (serializeFunctionsBytecode o rest m
          (emitEv (.bodyReuse f.opcodes f.jumpTables f.offset) s)).2) := by
  simp only [serializeFunctionsBytecode, hopt, hlay, hofs, if_true,
    Bool.false_eq_true, if_false]

theorem bc_cons_emit_emit {o : BytecodeGenerationOptions}
    (f : BytecodeFunction) (rest : List BytecodeFunction)
    {m : List (DedupKey × Nat)} {s : SerState}
    (hopt : o.optimizationEnabled = true) (hlay : s.isLayout = false)
    (hofs : ¬ f.offset < s.loc) :
    serializeFunctionsBytecode o (f :: rest) m s =
      (f :: (serializeFunctionsBytecode o rest m
          (writeFunctionBody o f
            (emitEv (.bodyEmit f.opcodes f.jumpTables s.loc) s))).1,
       (serializeFunctionsBytecode o rest m
          (writeFunctionBody o f
            (emitEv (.bodyEmit f.opcodes f.jumpTables s.loc) s))).2) := by
  simp only [serializeFunctionsBytecode, hopt, hlay, hofs, if_true,
    Bool.false_eq_true, if_false]

theorem bc_cons_noopt {o : BytecodeGenerationOptions}
    (f : BytecodeFunction) (rest : List BytecodeFunction)
    {m : List (DedupKey × Nat)} {s : SerState}
    (hopt : o.optimizationEnabled = false) :
    serializeFunctionsBytecode o (f :: rest) m s =
      ((if s.isLayout then { f with offset := s.loc } else f) ::
        (serializeFunctionsBytecode o rest m
          (writeFunctionBody o
            (if s.isLayout then { f with offset := s.loc } else f)
            (emitEv (.bodyEmit f.opcodes f.jumpTables s.loc) s))).1,
       (serializeFunctionsBytecode o rest m
          (writeFunctionBody o
            (if s.isLayout then { f with offset := s.loc } else f)
            (emitEv (.bodyEmit f.opcodes f.jumpTables s.loc) s))).2) := by
  simp only [serializeFunctionsBytecode, hopt, Bool.false_eq_true, if_false]

-- ============================ Bytecode run basics ============================

theorem wfbe_facts (o : BytecodeGenerationOptions) (h : BytecodeFunction)
    (ev : Event) (s : SerState) :
    (writeFunctionBody o h (emitEv ev s)).isLayout = s.isLayout ∧
    (writeFunctionBody o h (emitEv ev s)).fileLength = s.fileLength ∧
    (writeFunctionBody o h (emitEv ev s)).stringTableBytes =
      s.stringTableBytes ∧
    (writeFunctionBody o h (emitEv ev s)).debugInfoOffset =
      s.debugInfoOffset ∧
    (writeFunctionBody o h (emitEv ev s)).events = s.events ++ [ev] ∧
    Appends s (writeFunctionBody o h (emitEv ev s)) ∧
    (writeFunctionBody o h (emitEv ev s)).loc =
      bodyEnd o h.opcodes h.jumpTables s.loc := by
  refine ⟨?_, ?_, ?_, ?_, ?_, ?_, ?_⟩
  · rw [writeFunctionBody_isLayout]; rfl
  · rw [writeFunctionBody_fileLength]; rfl
  · rw [writeFunctionBody_stb]; rfl
  · rw [writeFunctionBody_dio]; rfl
  · rw [writeFunctionBody_events]; rfl
  · exact (Appends.emitEv ev s).trans (writeFunctionBody_appends o h _)
  · rw [writeFunctionBody_loc]; rfl

theorem bc_run_basic (o : BytecodeGenerationOptions)
    (t : List BytecodeFunction) :
    ∀ (m : List (DedupKey × Nat)) (s : SerState),
    ((serializeFunctionsBytecode o t m s).2.isLayout = s.isLayout ∧
     (serializeFunctionsBytecode o t m s).2.fileLength = s.fileLength ∧
     (serializeFunctionsBytecode o t m s).2.stringTableBytes =
       s.stringTableBytes ∧
     (serializeFunctionsBytecode o t m s).2.debugInfoOffset =
       s.debugInfoOffset) ∧
    Appends s (serializeFunctionsBytecode o t m s).2 ∧
    ∃ ε, (serializeFunctionsBytecode o t m s).2.events = s.events ++ ε ∧
      ∀ e ∈ ε, evAligned e ∧ isDbgRec e = false := by
  induction t with
  | nil =>
    intro m s
    exact ⟨⟨rfl, rfl, rfl, rfl⟩, Appends.rfl s, [], by rw [bc_nil]; simp,
      by simp⟩
  | cons f rest ih =>
    intro m s
    by_cases hopt : o.optimizationEnabled = true
    · cases hlay : s.isLayout with
      | true =>
        cases hm : lookupKey m (dedupKey f) with
        | some v =>
          rw [bc_cons_reuse_layout f rest hopt hlay hm]
          obtain ⟨⟨i1, i2, i3, i4⟩, iap, ε, ie, ip⟩ :=
            ih m (emitEv (.bodyReuse f.opcodes f.jumpTables v) s)
          refine ⟨⟨by rw [i1]; exact hlay, by rw [i2]; rfl, by rw [i3]; rfl,
            by rw [i4]; rfl⟩, (Appends.emitEv _ s).trans iap,
            Event.bodyReuse f.opcodes f.jumpTables v :: ε, ?_, ?_⟩
          · rw [ie]; simp
          · intro e he
            rcases List.mem_cons.mp he with he | he
            · subst he; exact ⟨trivial, rfl⟩
            · exact ip e he
        | none =>
          rw [bc_cons_insert_layout f rest hopt hlay hm]
          obtain ⟨w1, w2, w3, w4, w5, w6, -⟩ := wfbe_facts o
            { f with offset := s.loc } (.bodyEmit f.opcodes f.jumpTables s.loc) s
          obtain ⟨⟨i1, i2, i3, i4⟩, iap, ε, ie, ip⟩ :=
            ih (m ++ [(dedupKey f, s.loc)])
              (writeFunctionBody o { f with offset := s.loc }
                (emitEv (.bodyEmit f.opcodes f.jumpTables s.loc) s))
          refine ⟨⟨by rw [i1, w1]; exact hlay, by rw [i2, w2], by rw [i3, w3],
            by rw [i4, w4]⟩, w6.trans iap,
            Event.bodyEmit f.opcodes f.jumpTables s.loc :: ε, ?_, ?_⟩
          · rw [ie, w5]; simp
          · intro e he
            rcases List.mem_cons.mp he with he | he
            · subst he; exact ⟨trivial, rfl⟩
            · exact ip e he
      | false =>
        by_cases hofs : f.offset < s.loc
        · rw [bc_cons_reuse_emit f rest hopt hlay hofs]
          obtain ⟨⟨i1, i2, i3, i4⟩, iap, ε, ie, ip⟩ :=
            ih m (emitEv (.bodyReuse f.opcodes f.jumpTables f.offset) s)
          refine ⟨⟨by rw [i1]; exact hlay, by rw [i2]; rfl, by rw [i3]; rfl,
            by rw [i4]; rfl⟩, (Appends.emitEv _ s).trans iap,
            Event.bodyReuse f.opcodes f.jumpTables f.offset :: ε, ?_, ?_⟩
          · rw [ie]; simp
          · intro e he
            rcases List.mem_cons.mp he with he | he
            · subst he; exact ⟨trivial, rfl⟩
            · exact ip e he
        · rw [bc_cons_emit_emit f rest hopt hlay hofs]
          obtain ⟨w1, w2, w3, w4, w5, w6, -⟩ := wfbe_facts o f
            (.bodyEmit f.opcodes f.jumpTables s.loc) s
          obtain ⟨⟨i1, i2, i3, i4⟩, iap, ε, ie, ip⟩ :=
            ih m (writeFunctionBody o f
              (emitEv (.bodyEmit f.opcodes f.jumpTables s.loc) s))
          refine ⟨⟨by rw [i1, w1]; exact hlay, by rw [i2, w2], by rw [i3, w3],
            by rw [i4, w4]⟩, w6.trans iap,
            Event.bodyEmit f.opcodes f.jumpTables s.loc :: ε, ?_, ?_⟩
          · rw [ie, w5]; simp
          · intro e he
            rcases List.mem_cons.mp he with he | he
            · subst he; exact ⟨trivial, rfl⟩
            · exact ip e he
    · have hopt2 : o.optimizationEnabled = false := by
        cases ho : o.optimizationEnabled
        · rfl
        · exact absurd ho hopt
      rw [bc_cons_noopt f rest hopt2]
      obtain ⟨w1, w2, w3, w4, w5, w6, -⟩ := wfbe_facts o
        (if s.isLayout then { f with offset := s.loc } else f)
        (.bodyEmit f.opcodes f.jumpTables s.loc) s
      obtain ⟨⟨i1, i2, i3, i4⟩, iap, ε, ie, ip⟩ :=
        ih m (writeFunctionBody o
          (if s.isLayout then { f with offset := s.loc } else f)
          (emitEv (.bodyEmit f.opcodes f.jumpTables s.loc) s))
      refine ⟨⟨by rw [i1, w1], by rw [i2, w2], by rw [i3, w3],
        by rw [i4, w4]⟩, w6.trans iap,
        Event.bodyEmit f.opcodes f.jumpTables s.loc :: ε, ?_, ?_⟩
      · rw [ie, w5]; simp
      · intro e he
        rcases List.mem_cons.mp he with he | he
        · subst he; exact ⟨trivial, rfl⟩
        · exact ip e he

theorem fn_set_offset_self (f : BytecodeFunction) :
    { f with offset := f.offset } = f := by
  cases f; rfl

theorem ite_fn_opcodes (c : Prop) [Decidable c] (f : BytecodeFunction)
    (x : Nat) :
    (if c then { f with offset := x } else f).opcodes = f.opcodes := by
  split <;> rfl

theorem ite_fn_jumpTables (c : Prop) [Decidable c] (f : BytecodeFunction)
    (x : Nat) :
    (if c then { f with offset := x } else f).jumpTables = f.jumpTables := by
  split <;> rfl

/-- In EMIT mode the body encoder never modifies the function table. -/
theorem bc_emit_table (o : BytecodeGenerationOptions)
    (t : List BytecodeFunction) :
    ∀ (m : List (DedupKey × Nat)) (s : SerState), s.isLayout = false →
    (serializeFunctionsBytecode o t m s).1 = t := by
  induction t with
  | nil => intro m s _; rfl
  | cons f rest ih =>
    intro m s hs
    by_cases hopt : o.optimizationEnabled = true
    · by_cases hofs : f.offset < s.loc
      · rw [bc_cons_reuse_emit f rest hopt hs hofs]
        have hL : (emitEv (.bodyReuse f.opcodes f.jumpTables f.offset) s).isLayout
            = false := by rw [emitEv_isLayout, hs]
        rw [ih _ _ hL]
      · rw [bc_cons_emit_emit f rest hopt hs hofs]
        have hL : (writeFunctionBody o f
            (emitEv (.bodyEmit f.opcodes f.jumpTables s.loc) s)).isLayout
            = false := by
          rw [writeFunctionBody_isLayout, emitEv_isLayout, hs]
        rw [ih _ _ hL]
    · have hopt2 : o.optimizationEnabled = false := by
        cases ho : o.optimizationEnabled
        · rfl
        · exact absurd ho hopt
      rw [bc_cons_noopt f rest hopt2]
      have hL : (writeFunctionBody o
          (if s.isLayout then { f with offset := s.loc } else f)
          (emitEv (.bodyEmit f.opcodes f.jumpTables s.loc) s)).isLayout
          = false := by
        rw [writeFunctionBody_isLayout, emitEv_isLayout, hs]
      rw [ih _ _ hL]
      simp [hs]

/-- The body encoder only ever rewrites the `offset` field. -/
theorem bc_shape (o : BytecodeGenerationOptions)
    (t : List BytecodeFunction) :
    ∀ (m : List (DedupKey × Nat)) (s : SerState),
    List.Forall₂ (fun f g => ∃ v, g = { f with offset := v }) t
      (serializeFunctionsBytecode o t m s).1 := by
  induction t with
  | nil => intro m s; exact List.Forall₂.nil
  | cons f rest ih =>
    intro m s
    by_cases hopt : o.optimizationEnabled = true
    · cases hlay : s.isLayout with
      | true =>
        cases hm : lookupKey m (dedupKey f) with
        | some v =>
          rw [bc_cons_reuse_layout f rest hopt hlay hm]
          exact List.Forall₂.cons ⟨v, rfl⟩ (ih _ _)
        | none =>
          rw [bc_cons_insert_layout f rest hopt hlay hm]
          exact List.Forall₂.cons ⟨s.loc, rfl⟩ (ih _ _)
      | false =>
        by_cases hofs : f.offset < s.loc
        · rw [bc_cons_reuse_emit f rest hopt hlay hofs]
          exact List.Forall₂.cons ⟨f.offset, (fn_set_offset_self f).symm⟩ (ih _ _)
        · rw [bc_cons_emit_emit f rest hopt hlay hofs]
          exact List.Forall₂.cons ⟨f.offset, (fn_set_offset_self f).symm⟩ (ih _ _)
    · have hopt2 : o.optimizationEnabled = false := by
        cases ho : o.optimizationEnabled
        · rfl
        · exact absurd ho hopt
      rw [bc_cons_noopt f rest hopt2]
      refine List.Forall₂.cons ?_ (ih _ _)
      by_cases hlay : s.isLayout = true
      · rw [if_pos hlay]
        exact ⟨s.loc, rfl⟩
      · rw [if_neg hlay]
        exact ⟨f.offset, (fn_set_offset_self f).symm⟩

/-- Position after the bytecode region with deduplication disabled: a
pure fold over the body contents. -/
def bodiesEnd (o : BytecodeGenerationOptions) : List DedupKey → Nat → Nat
  | [], x => x
  | k :: ks, x => bodiesEnd o ks (bodyEnd o k.1 k.2 x)

theorem bc_noopt_loc (o : BytecodeGenerationOptions)
    (hopt : o.optimizationEnabled = false) (t : List BytecodeFunction) :
    ∀ (m : List (DedupKey × Nat)) (s : SerState),
    (serializeFunctionsBytecode o t m s).2.loc =
      bodiesEnd o (t.map dedupKey) s.loc := by
  induction t with
  | nil => intro m s; rfl
  | cons f rest ih =>
    intro m s
    rw [bc_cons_noopt f rest hopt]
    show (serializeFunctionsBytecode o rest m _).2.loc = _
    rw [ih]
    obtain ⟨-, -, -, -, -, -, w7⟩ := wfbe_facts o
      (if s.isLayout then { f with offset := s.loc } else f)
      (.bodyEmit f.opcodes f.jumpTables s.loc) s
    rw [w7, ite_fn_opcodes, ite_fn_jumpTables]
    rfl

/-- The body encoder appends exactly one body marker per function. -/
theorem bc_flags_length (o : BytecodeGenerationOptions)
    (t : List BytecodeFunction) :
    ∀ (m : List (DedupKey × Nat)) (s : SerState),
    (bodyFlagsOf (serializeFunctionsBytecode o t m s).2.events).length =
      (bodyFlagsOf s.events).length + t.length := by
  induction t with
  | nil => intro m s; rw [bc_nil]; rfl
  | cons f rest ih =>
    intro m s
    have hstep : ∀ (ev : Event), isBody ev = true → ∀ s' : SerState,
        s'.events = s.events ++ [ev] →
        ∀ m' : List (DedupKey × Nat),
        (bodyFlagsOf (serializeFunctionsBytecode o rest m' s').2.events).length
          = (bodyFlagsOf s.events).length + rest.length + 1 := by
      intro ev hev s' hs' m'
      rw [ih m' s', hs', bodyFlagsOf_append]
      have : (bodyFlagsOf [ev]).length = 1 := by
        cases ev <;> simp_all [bodyFlagsOf, isBody]
      simp [this]
      omega
    by_cases hopt : o.optimizationEnabled = true
    · cases hlay : s.isLayout with
      | true =>
        cases hm : lookupKey m (dedupKey f) with
        | some v =>
          rw [bc_cons_reuse_layout f rest hopt hlay hm]
          show (bodyFlagsOf (serializeFunctionsBytecode o rest m _).2.events).length = _
          rw [hstep (.bodyReuse f.opcodes f.jumpTables v) rfl _ (by simp) m]
          simp [Nat.add_assoc]
        | none =>
          rw [bc_cons_insert_layout f rest hopt hlay hm]
          show (bodyFlagsOf (serializeFunctionsBytecode o rest _ _).2.events).length = _
          rw [hstep (.bodyEmit f.opcodes f.jumpTables s.loc) rfl _
            (by rw [writeFunctionBody_events, emitEv_events]) _]
          simp [Nat.add_assoc]
      | false =>
        by_cases hofs : f.offset < s.loc
        · rw [bc_cons_reuse_emit f rest hopt hlay hofs]
          show (bodyFlagsOf (serializeFunctionsBytecode o rest m _).2.events).length = _
          rw [hstep (.bodyReuse f.opcodes f.jumpTables f.offset) rfl _ (by simp) m]
          simp [Nat.add_assoc]
        · rw [bc_cons_emit_emit f rest hopt hlay hofs]
          show (bodyFlagsOf (serializeFunctionsBytecode o rest m _).2.events).length = _
          rw [hstep (.bodyEmit f.opcodes f.jumpTables s.loc) rfl _
            (by rw [writeFunctionBody_events, emitEv_events]) m]
          simp [Nat.add_assoc]
    · have hopt2 : o.optimizationEnabled = false := by
        cases ho : o.optimizationEnabled
        · rfl
        · exact absurd ho hopt
      rw [bc_cons_noopt f rest hopt2]
      show (bodyFlagsOf (serializeFunctionsBytecode o rest m _).2.events).length = _
      rw [hstep (.bodyEmit f.opcodes f.jumpTables s.loc) rfl _
        (by rw [writeFunctionBody_events, emitEv_events]) m]
      simp [Nat.add_assoc]

-- ============================ Layout dedup main lemma ============================

/-- Main invariant of the layout-mode body encoder: the dedup map grows
by exactly the body emissions, keys stay distinct, values stay strictly
increasing, and every processed function's recorded offset is the map
entry of its content. -/
theorem bc_layout_main (o : BytecodeGenerationOptions)
    (hopt : o.optimizationEnabled = true) (t : List BytecodeFunction) :
    ∀ (m : List (DedupKey × Nat)) (s : SerState),
    s.isLayout = true →
    (∀ f ∈ t, f.opcodes ≠ [] ∨ f.jumpTables ≠ []) →
    (∀ kv ∈ m, kv.2 < s.loc) →
    (m.map Prod.fst).Nodup →
    List.Pairwise (fun a b => a.2 < b.2) m →
    ∃ mNew,
      ((m ++ mNew).map Prod.fst).Nodup ∧
      List.Pairwise (fun a b => a.2 < b.2) (m ++ mNew) ∧
      bodyEmitsOf (serializeFunctionsBytecode o t m s).2.events =
        bodyEmitsOf s.events ++ mNew ∧
      (∀ g ∈ (serializeFunctionsBytecode o t m s).1,
        lookupKey (m ++ mNew) (dedupKey g) = some g.offset) := by
  induction t with
  | nil =>
    intro m s _ _ _ hnd hpw
    refine ⟨[], by simpa using hnd, by simpa using hpw, ?_, ?_⟩
    · rw [bc_nil]; simp
    · intro g hg
      rw [bc_nil] at hg
      cases hg
  | cons f rest ih =>
    intro m s hlay hne hvb hnd hpw
    cases hm : lookupKey m (dedupKey f) with
    | some v =>
      rw [bc_cons_reuse_layout f rest hopt hlay hm]
      obtain ⟨mNew, c1, c2, c3, c4⟩ := ih m
        (emitEv (.bodyReuse f.opcodes f.jumpTables v) s)
        (by rw [emitEv_isLayout]; exact hlay)
        (fun x hx => hne x (List.mem_cons_of_mem f hx))
        (by rw [emitEv_loc]; exact hvb) hnd hpw
      refine ⟨mNew, c1, c2, ?_, ?_⟩
      · rw [c3, emitEv_events, bodyEmitsOf_append]
        simp [bodyEmitsOf]
      · intro g hg
        rcases List.mem_cons.mp hg with hg | hg
        · subst hg
          show lookupKey (m ++ mNew) (dedupKey f) = some v
          exact lookup_append_some hm mNew
        · exact c4 g hg
    | none =>
      rw [bc_cons_insert_layout f rest hopt hlay hm]
      obtain ⟨w1, -, -, -, w5, -, w7⟩ := wfbe_facts o
        { f with offset := s.loc } (.bodyEmit f.opcodes f.jumpTables s.loc) s
      have hgt : s.loc < (writeFunctionBody o { f with offset := s.loc }
          (emitEv (.bodyEmit f.opcodes f.jumpTables s.loc) s)).loc := by
        rw [w7]
        exact bodyEnd_gt o f.opcodes f.jumpTables s.loc
          (hne f (List.mem_cons_self f rest))
      have hnd2 : ((m ++ [(dedupKey f, s.loc)]).map Prod.fst).Nodup := by
        rw [List.map_append]
        refine List.Nodup.append hnd (List.nodup_singleton _) ?_
        intro a ha hb
        simp only [List.map_cons, List.map_nil, List.mem_singleton] at hb
        subst hb
        exact lookup_none_not_mem hm ha
      have hpw2 : List.Pairwise (fun a b => a.2 < b.2)
          (m ++ [(dedupKey f, s.loc)]) := by
        rw [List.pairwise_append]
        exact ⟨hpw, List.pairwise_singleton _ _,
          fun a ha b hb => by
            simp only [List.mem_singleton] at hb
            subst hb
            exact hvb a ha⟩
      obtain ⟨mNew2, c1, c2, c3, c4⟩ := ih (m ++ [(dedupKey f, s.loc)])
        (writeFunctionBody o { f with offset := s.loc }
          (emitEv (.bodyEmit f.opcodes f.jumpTables s.loc) s))
        (by rw [w1]; exact hlay)
        (fun x hx => hne x (List.mem_cons_of_mem f hx))
        (by
          intro kv hkv
          rcases List.mem_append.mp hkv with hkv | hkv
          · exact lt_trans (hvb kv hkv) hgt
          · simp only [List.mem_singleton] at hkv
            subst hkv
            exact hgt)
        hnd2 hpw2
      have happ : m ++ ((dedupKey f, s.loc) :: mNew2) =
          (m ++ [(dedupKey f, s.loc)]) ++ mNew2 := by
        simp
      refine ⟨(dedupKey f, s.loc) :: mNew2, by rw [happ]; exact c1,
        by rw [happ]; exact c2, ?_, ?_⟩
      · rw [c3, w5, bodyEmitsOf_append]
        simp [bodyEmitsOf, dedupKey]
      · intro g hg
        rcases List.mem_cons.mp hg with hg | hg
        · subst hg
          show lookupKey (m ++ ((dedupKey f, s.loc) :: mNew2)) (dedupKey f)
            = some s.loc
          rw [lookup_append_none hm]
          exact lookup_head _ _ _
        · rw [happ]
          exact c4 g hg

-- ============================ Layout/emit parallel lemma ============================

/-- Relation between a function produced by the layout run and the same
function as the emit pass sees it: identical body content and identical
recorded offset. -/
def EmitRel (fL g : BytecodeFunction) : Prop :=
  g.opcodes = fL.opcodes ∧ g.jumpTables = fL.jumpTables ∧ g.offset = fL.offset

/-- The emit-mode reuse check `offset < loc` reproduces exactly the
layout-mode dedup decisions, provided every function body is non-empty:
the two runs advance through the same positions and record the same
body-event trace. -/
theorem bc_parallel (o : BytecodeGenerationOptions)
    (hopt : o.optimizationEnabled = true) (t : List BytecodeFunction) :
    ∀ (m mE : List (DedupKey × Nat)) (s sE : SerState)
      (tE : List BytecodeFunction),
    s.isLayout = true → sE.isLayout = false → sE.loc = s.loc →
    (∀ f ∈ t, f.opcodes ≠ [] ∨ f.jumpTables ≠ []) →
    (∀ kv ∈ m, kv.2 < s.loc) →
    List.Forall₂ EmitRel (serializeFunctionsBytecode o t m s).1 tE →
    (serializeFunctionsBytecode o tE mE sE).2.loc =
      (serializeFunctionsBytecode o t m s).2.loc ∧
    ∃ δ, (serializeFunctionsBytecode o t m s).2.events = s.events ++ δ ∧
      (serializeFunctionsBytecode o tE mE sE).2.events = sE.events ++ δ := by
  induction t with
  | nil =>
    intro m mE s sE tE hlay hlayE hloc hne hvb hrel
    rw [bc_nil] at hrel
    cases hrel
    rw [bc_nil, bc_nil]
    exact ⟨hloc, [], by simp, by simp⟩
  | cons f rest ih =>
    intro m mE s sE tE hlay hlayE hloc hne hvb hrel
    cases hm : lookupKey m (dedupKey f) with
    | some v =>
      rw [bc_cons_reuse_layout f rest hopt hlay hm] at hrel ⊢
      rcases hrel with - | ⟨⟨r1, r2, r3⟩, hrel⟩
      rename_i g tE'
      have hgofs : g.offset < sE.loc := by
        rw [r3, hloc]
        show v < s.loc
        have := hvb _ (lookup_mem hm)
        exact this
      rw [bc_cons_reuse_emit g tE' hopt hlayE hgofs]
      have hrw : Event.bodyReuse g.opcodes g.jumpTables g.offset =
          Event.bodyReuse f.opcodes f.jumpTables v := by
        rw [r1, r2, r3]
      obtain ⟨cloc, δ2, d1, d2⟩ := ih m mE
        (emitEv (.bodyReuse f.opcodes f.jumpTables v) s)
        (emitEv (.bodyReuse f.opcodes f.jumpTables v) sE) tE'
        (by rw [emitEv_isLayout]; exact hlay)
        (by rw [emitEv_isLayout]; exact hlayE)
        (by rw [emitEv_loc, emitEv_loc]; exact hloc)
        (fun x hx => hne x (List.mem_cons_of_mem f hx))
        (by rw [emitEv_loc]; exact hvb) hrel
      rw [hrw]
      refine ⟨cloc, Event.bodyReuse f.opcodes f.jumpTables v :: δ2, ?_, ?_⟩
      · rw [d1, emitEv_events]
        simp
      · rw [d2, emitEv_events]
        simp
    | none =>
      rw [bc_cons_insert_layout f rest hopt hlay hm] at hrel ⊢
      rcases hrel with - | ⟨⟨r1, r2, r3⟩, hrel⟩
      rename_i g tE'
      have hr1 : g.opcodes = f.opcodes := r1
      have hr2 : g.jumpTables = f.jumpTables := r2
      have hr3 : g.offset = s.loc := r3
      have hgofs : ¬ g.offset < sE.loc := by
        rw [hr3, hloc]
        omega
      rw [bc_cons_emit_emit g tE' hopt hlayE hgofs]
      have hrw : Event.bodyEmit g.opcodes g.jumpTables sE.loc =
          Event.bodyEmit f.opcodes f.jumpTables s.loc := by
        rw [hr1, hr2, hloc]
      obtain ⟨wL1, -, -, -, wL5, -, wL7⟩ := wfbe_facts o
        { f with offset := s.loc } (.bodyEmit f.opcodes f.jumpTables s.loc) s
      obtain ⟨wE1, -, -, -, wE5, -, wE7⟩ := wfbe_facts o g
        (.bodyEmit g.opcodes g.jumpTables sE.loc) sE
      have hlocs : (writeFunctionBody o g
          (emitEv (.bodyEmit g.opcodes g.jumpTables sE.loc) sE)).loc =
          (writeFunctionBody o { f with offset := s.loc }
            (emitEv (.bodyEmit f.opcodes f.jumpTables s.loc) s)).loc := by
        rw [wE7, wL7, hr1, hr2, hloc]
      have hgt : s.loc < (writeFunctionBody o { f with offset := s.loc }
          (emitEv (.bodyEmit f.opcodes f.jumpTables s.loc) s)).loc := by
        rw [wL7]
        exact bodyEnd_gt o f.opcodes f.jumpTables s.loc
          (hne f (List.mem_cons_self f rest))
      obtain ⟨cloc, δ2, d1, d2⟩ := ih (m ++ [(dedupKey f, s.loc)]) mE
        (writeFunctionBody o { f with offset := s.loc }
          (emitEv (.bodyEmit f.opcodes f.jumpTables s.loc) s))
        (writeFunctionBody o g
          (emitEv (.bodyEmit g.opcodes g.jumpTables sE.loc) sE)) tE'
        (by rw [wL1]; exact hlay)
        (by rw [wE1]; exact hlayE)
        hlocs
        (fun x hx => hne x (List.mem_cons_of_mem f hx))
        (by
          intro kv hkv
          rcases List.mem_append.mp hkv with hkv | hkv
          · exact lt_trans (hvb kv hkv) hgt
          · simp only [List.mem_singleton] at hkv
            subst hkv
            exact hgt)
        hrel
      refine ⟨cloc, Event.bodyEmit f.opcodes f.jumpTables s.loc :: δ2, ?_, ?_⟩
      · rw [d1, wL5]
        simp
      · rw [d2, wE5, hrw]
        simp

-- ============================ Bytecode layout determinism ============================

theorem dedupKey_content {f g : BytecodeFunction}
    (h : content f = content g) : dedupKey f = dedupKey g := by
  obtain ⟨h1, h2, -, -, -, -⟩ := content_fields h
  simp [dedupKey, h1, h2]

theorem writeFunctionBody_content (o : BytecodeGenerationOptions)
    {f g : BytecodeFunction} (h : content f = content g) (s : SerState) :
    writeFunctionBody o f s = writeFunctionBody o g s := by
  obtain ⟨h1, h2, -, -, -, -⟩ := content_fields h
  unfold writeFunctionBody
  rw [h1, h2]

/-- In LAYOUT mode the body encoder is a function of the bodies alone:
содержимое-equal tables produce identical states and offset-equal,
content-equal output tables. -/
theorem bc_layout_det (o : BytecodeGenerationOptions)
    {t1 t2 : List BytecodeFunction}
    (h : List.Forall₂ (fun f g => content f = content g) t1 t2) :
    ∀ (m : List (DedupKey × Nat)) (s : SerState), s.isLayout = true →
    (serializeFunctionsBytecode o t1 m s).2 =
      (serializeFunctionsBytecode o t2 m s).2 ∧
    List.Forall₂ (fun a b => content a = content b ∧ a.offset = b.offset)
      (serializeFunctionsBytecode o t1 m s).1
      (serializeFunctionsBytecode o t2 m s).1 := by
  induction h with
  | nil => intro m s _; exact ⟨rfl, List.Forall₂.nil⟩
  | @cons f g tl1 tl2 hfg htl ih =>
    intro m s hlay
    obtain ⟨k1, k2, -, -, -, -⟩ := content_fields hfg
    have hkey : dedupKey f = dedupKey g := dedupKey_content hfg
    by_cases hopt : o.optimizationEnabled = true
    · cases hm : lookupKey m (dedupKey f) with
      | some v =>
        rw [bc_cons_reuse_layout f tl1 hopt hlay hm,
          bc_cons_reuse_layout g tl2 hopt hlay (hkey ▸ hm)]
        have hev : Event.bodyReuse g.opcodes g.jumpTables v =
            Event.bodyReuse f.opcodes f.jumpTables v := by rw [k1, k2]
        rw [hev]
        obtain ⟨ihs, iht⟩ := ih m
          (emitEv (.bodyReuse f.opcodes f.jumpTables v) s)
          (by rw [emitEv_isLayout]; exact hlay)
        refine ⟨ihs, List.Forall₂.cons ?_ iht⟩
        exact ⟨by rw [content_setOffset, content_setOffset]; exact hfg, rfl⟩
      | none =>
        rw [bc_cons_insert_layout f tl1 hopt hlay hm,
          bc_cons_insert_layout g tl2 hopt hlay (hkey ▸ hm)]
        have hev : Event.bodyEmit g.opcodes g.jumpTables s.loc =
            Event.bodyEmit f.opcodes f.jumpTables s.loc := by rw [k1, k2]
        have hst : writeFunctionBody o { g with offset := s.loc }
            (emitEv (.bodyEmit g.opcodes g.jumpTables s.loc) s) =
            writeFunctionBody o { f with offset := s.loc }
              (emitEv (.bodyEmit f.opcodes f.jumpTables s.loc) s) := by
          rw [hev]
          exact writeFunctionBody_content o
            (by simp only [content_setOffset]; exact hfg.symm) _
        rw [hst, ← hkey]
        obtain ⟨ihs, iht⟩ := ih (m ++ [(dedupKey f, s.loc)])
          (writeFunctionBody o { f with offset := s.loc }
            (emitEv (.bodyEmit f.opcodes f.jumpTables s.loc) s))
          (by
            obtain ⟨w1, -, -, -, -, -, -⟩ := wfbe_facts o
              { f with offset := s.loc }
              (.bodyEmit f.opcodes f.jumpTables s.loc) s
            rw [w1]
            exact hlay)
        refine ⟨ihs, List.Forall₂.cons ?_ iht⟩
        exact ⟨by rw [content_setOffset, content_setOffset]; exact hfg, rfl⟩
    · have hopt2 : o.optimizationEnabled = false := by
        cases ho : o.optimizationEnabled
        · rfl
        · exact absurd ho hopt
      rw [bc_cons_noopt f tl1 hopt2, bc_cons_noopt g tl2 hopt2]
      rw [if_pos hlay, if_pos hlay]
      have hev : Event.bodyEmit g.opcodes g.jumpTables s.loc =
          Event.bodyEmit f.opcodes f.jumpTables s.loc := by rw [k1, k2]
      have hst : writeFunctionBody o { g with offset := s.loc }
          (emitEv (.bodyEmit g.opcodes g.jumpTables s.loc) s) =
          writeFunctionBody o { f with offset := s.loc }
            (emitEv (.bodyEmit f.opcodes f.jumpTables s.loc) s) := by
        rw [hev]
        exact writeFunctionBody_content o
          (by simp only [content_setOffset]; exact hfg.symm) _
      rw [hst]
      obtain ⟨ihs, iht⟩ := ih m
        (writeFunctionBody o { f with offset := s.loc }
          (emitEv (.bodyEmit f.opcodes f.jumpTables s.loc) s))
        (by
          obtain ⟨w1, -, -, -, -, -, -⟩ := wfbe_facts o
            { f with offset := s.loc }
            (.bodyEmit f.opcodes f.jumpTables s.loc) s
          rw [w1]
          exact hlay)
      refine ⟨ihs, List.Forall₂.cons ?_ iht⟩
      exact ⟨by rw [content_setOffset, content_setOffset]; exact hfg, rfl⟩

-- ============================ Forall₂ helpers ============================

theorem forall₂_mem_right {α β : Type} {R : α → β → Prop}
    {l1 : List α} {l2 : List β} (h : List.Forall₂ R l1 l2) {b : β}
    (hb : b ∈ l2) : ∃ a ∈ l1, R a b := by
  induction h with
  | nil => cases hb
  | cons hfg htl ih =>
    rcases List.mem_cons.mp hb with hb | hb
    · subst hb
      exact ⟨_, List.mem_cons_self _ _, hfg⟩
    · obtain ⟨a, ha, hr⟩ := ih hb
      exact ⟨a, List.mem_cons_of_mem _ ha, hr⟩

theorem forall₂_comp {α β γ : Type} {R : α → β → Prop} {S : β → γ → Prop}
    {T : α → γ → Prop} {l1 : List α} {l2 : List β} {l3 : List γ}
    (h1 : List.Forall₂ R l1 l2) (h2 : List.Forall₂ S l2 l3)
    (h : ∀ a b c, R a b → S b c → T a c) : List.Forall₂ T l1 l3 := by
  induction h1 generalizing l3 with
  | nil =>
    cases h2
    exact List.Forall₂.nil
  | cons hfg htl ih =>
    cases h2 with
    | cons hgc htl2 =>
      exact List.Forall₂.cons (h _ _ _ hfg hgc) (ih htl2)

theorem forall₂_map_self {α β : Type} (f : α → β) (l : List α) :
    List.Forall₂ (fun a b => b = f a) l (l.map f) := by
  induction l with
  | nil => exact List.Forall₂.nil
  | cons x xs ih => exact List.Forall₂.cons rfl ih

-- ============================ Per-section loc and field lemmas ============================

theorem ft_loc (strip : Bool) (t : List BytecodeFunction) (s : SerState) :
    (serializeFunctionTable strip t s).2.loc = s.loc + 16 * t.length := by
  rw [serializeFunctionTable_eq]
  have h16 := length_flatten_map_const
    (fun f => encodeSmallFuncHeader (clearFn strip f)) 16
    (fun f => encodeSmallFuncHeader_length _) t
  show (writeBytes _ _).loc = _
  rw [writeBytes_loc, h16]

theorem ft_state_facts (strip : Bool) (t : List BytecodeFunction)
    (s : SerState) :
    (serializeFunctionTable strip t s).2.isLayout = s.isLayout ∧
    (serializeFunctionTable strip t s).2.fileLength = s.fileLength ∧
    (serializeFunctionTable strip t s).2.stringTableBytes =
      s.stringTableBytes ∧
    (serializeFunctionTable strip t s).2.debugInfoOffset =
      s.debugInfoOffset ∧
    (serializeFunctionTable strip t s).2.events = s.events ∧
    Appends s (serializeFunctionTable strip t s).2 := by
  rw [serializeFunctionTable_eq]
  exact ⟨rfl, rfl, rfl, rfl, rfl, Appends.writeBytes _ _⟩

theorem st_loc (tbl : List StringTableEntry) (hashes storage : List Nat)
    (s : SerState) :
    (serializeStringTable tbl hashes storage s).loc =
      s.loc + (4 * tbl.length + 8 * (ovEntries tbl).length
        + 4 * hashes.length + storage.length) := by
  obtain ⟨δ, heq, hlen⟩ := serializeStringTable_spec tbl hashes storage s
  rw [heq]
  show (writeBytes s δ).loc = _
  rw [writeBytes_loc, hlen]

theorem st_state_facts (tbl : List StringTableEntry)
    (hashes storage : List Nat) (s : SerState) :
    (serializeStringTable tbl hashes storage s).isLayout = s.isLayout ∧
    (serializeStringTable tbl hashes storage s).fileLength = s.fileLength ∧
    (serializeStringTable tbl hashes storage s).debugInfoOffset =
      s.debugInfoOffset ∧
    Appends s (serializeStringTable tbl hashes storage s) := by
  obtain ⟨δ, heq, hlen⟩ := serializeStringTable_spec tbl hashes storage s
  rw [heq]
  refine ⟨rfl, rfl, rfl, ?_⟩
  obtain ⟨δ2, h1, h2⟩ := Appends.writeBytes s δ
  exact ⟨δ2, h1, h2⟩

theorem re_loc (tbl : List (Nat × Nat)) (stor : List Nat) (s : SerState) :
    (serializeRegExps tbl stor s).loc =
      s.loc + padAmount s.loc 4 + (8 * tbl.length + stor.length) := by
  rw [serializeRegExps_eq]
  have := length_flatten_map_const encodeU32Pair 8 encodeU32Pair_length tbl
  simp [this, Nat.add_assoc]

theorem re_state_facts (tbl : List (Nat × Nat)) (stor : List Nat)
    (s : SerState) :
    (serializeRegExps tbl stor s).isLayout = s.isLayout ∧
    (serializeRegExps tbl stor s).fileLength = s.fileLength ∧
    (serializeRegExps tbl stor s).stringTableBytes = s.stringTableBytes ∧
    (serializeRegExps tbl stor s).debugInfoOffset = s.debugInfoOffset ∧
    Appends s (serializeRegExps tbl stor s) := by
  rw [serializeRegExps_eq]
  exact ⟨rfl, rfl, rfl, rfl,
    ((Appends.pad 4 s).trans (Appends.emitEv _ _)).trans
      (Appends.writeBytes _ _)⟩

theorem cjs_loc (dyn stat : List (Nat × Nat)) (s : SerState) :
    (serializeCJSModuleTable dyn stat s).loc =
      s.loc + padAmount s.loc 4 + (8 * dyn.length + 8 * stat.length) := by
  rw [serializeCJSModuleTable_eq]
  have h1 := length_flatten_map_const encodeU32Pair 8 encodeU32Pair_length dyn
  have h2 := length_flatten_map_const encodeU32Pair 8 encodeU32Pair_length stat
  simp [h1, h2, Nat.add_assoc]

theorem cjs_state_facts (dyn stat : List (Nat × Nat)) (s : SerState) :
    (serializeCJSModuleTable dyn stat s).isLayout = s.isLayout ∧
    (serializeCJSModuleTable dyn stat s).fileLength = s.fileLength ∧
    (serializeCJSModuleTable dyn stat s).stringTableBytes =
      s.stringTableBytes ∧
    (serializeCJSModuleTable dyn stat s).debugInfoOffset =
      s.debugInfoOffset ∧
    Appends s (serializeCJSModuleTable dyn stat s) := by
  rw [serializeCJSModuleTable_eq]
  exact ⟨rfl, rfl, rfl, rfl,
    ((Appends.pad 4 s).trans (Appends.emitEv _ _)).trans
      (Appends.writeBytes _ _)⟩

theorem dbg_loc (strip : Bool) (di : DebugInfo) (s : SerState) :
    (serializeDebugInfo strip di s).loc =
      s.loc + padAmount s.loc 4 + (debugBytes strip di).length := by
  rw [serializeDebugInfo_eq]
  simp [emitEv, Nat.add_assoc]

theorem dbg_state_facts (strip : Bool) (di : DebugInfo) (s : SerState) :
    (serializeDebugInfo strip di s).isLayout = s.isLayout ∧
    (serializeDebugInfo strip di s).fileLength = s.fileLength ∧
    (serializeDebugInfo strip di s).stringTableBytes = s.stringTableBytes ∧
    (serializeDebugInfo strip di s).debugInfoOffset =
      s.loc + padAmount s.loc 4 ∧
    (serializeDebugInfo strip di s).out =
      s.out ++ List.replicate (padAmount s.loc 4) 0 ++ debugBytes strip di := by
  rw [serializeDebugInfo_eq]
  refine ⟨rfl, rfl, rfl, ?_, ?_⟩
  · show (pad 4 s).loc = _
    simp
  · show ({ pad 4 s with debugInfoOffset := (pad 4 s).loc }).out ++ _ = _
    simp

-- ============================ Pass decomposition ============================

def pS1 (BM : BytecodeModule) (sh : List Nat) (s : SerState) : SerState :=
  writeBytes s (encodeFileHeader (mkFileHeader BM sh s))

def pR2 (BM : BytecodeModule) (sh : List Nat)
    (o : BytecodeGenerationOptions) (s : SerState) :
    List BytecodeFunction × SerState :=
  serializeFunctionTable o.stripDebugInfoSection BM.functionTable
    (pS1 BM sh s)

def pS7 (BM : BytecodeModule) (sh : List Nat)
    (o : BytecodeGenerationOptions) (s : SerState) : SerState :=
  serializeCJSModuleTable BM.cjsModuleTable BM.cjsModuleTableStatic
    (serializeRegExps BM.regExpTable BM.regExpStorage
      (serializeObjectBuffer BM.objectKeyBuffer BM.objectValueBuffer
        (serializeArrayBuffer BM.arrayBuffer
          (serializeStringTable BM.stringTable BM.identifierHashes
            BM.stringStorage (pR2 BM sh o s).2))))

def pR8 (BM : BytecodeModule) (sh : List Nat)
    (o : BytecodeGenerationOptions) (s : SerState) :
    List BytecodeFunction × SerState :=
  serializeFunctionsBytecode o (pR2 BM sh o s).1 [] (pS7 BM sh o s)

def pR9 (BM : BytecodeModule) (sh : List Nat)
    (o : BytecodeGenerationOptions) (s : SerState) :
    List BytecodeFunction × SerState :=
  serializeFunctionInfoAll o (pR8 BM sh o s).1 (pR8 BM sh o s).2

theorem serializePass_eq (BM : BytecodeModule) (sh : List Nat)
    (o : BytecodeGenerationOptions) (s : SerState) :
    serializePass BM sh o s =
      ({ BM with functionTable := (pR9 BM sh o s).1 },
       serializeDebugInfo o.stripDebugInfoSection BM.debugInfo
         (pR9 BM sh o s).2) := rfl

theorem forall₂_map_eq {α β : Type} {R : α → α → Prop} {l1 l2 : List α}
    (h : List.Forall₂ R l1 l2) (k : α → β) (hk : ∀ a b, R a b → k a = k b) :
    l1.map k = l2.map k := by
  induction h with
  | nil => rfl
  | cons hfg htl ih => simp [hk _ _ hfg, ih]

-- ============================ Pass-level facts ============================

theorem pS1_facts (BM : BytecodeModule) (sh : List Nat) (s : SerState) :
    (pS1 BM sh s).loc = s.loc + 96 ∧
    (pS1 BM sh s).isLayout = s.isLayout ∧
    (pS1 BM sh s).fileLength = s.fileLength ∧
    (pS1 BM sh s).events = s.events ∧
    Appends s (pS1 BM sh s) := by
  unfold pS1
  refine ⟨?_, ?_, ?_, ?_, Appends.writeBytes _ _⟩
  · rw [writeBytes_loc, encodeFileHeader_length]
  · rw [writeBytes_isLayout]
  · rw [writeBytes_fileLength]
  · rw [writeBytes_events]

theorem pR2_facts (BM : BytecodeModule) (sh : List Nat)
    (o : BytecodeGenerationOptions) (s : SerState) :
    (pR2 BM sh o s).2.isLayout = s.isLayout ∧
    (pR2 BM sh o s).2.fileLength = s.fileLength ∧
    (pR2 BM sh o s).2.events = s.events ∧
    Appends s (pR2 BM sh o s).2 ∧
    (pR2 BM sh o s).2.loc = s.loc + 96 + 16 * BM.functionTable.length ∧
    (pR2 BM sh o s).1 =
      BM.functionTable.map (clearFn o.stripDebugInfoSection) := by
  obtain ⟨h1loc, h1L, h1F, h1E, h1A⟩ := pS1_facts BM sh s
  obtain ⟨f1, f2, f3, f4, f5, f6⟩ := ft_state_facts o.stripDebugInfoSection
    BM.functionTable (pS1 BM sh s)
  have hv2 : (pR2 BM sh o s).2 = (serializeFunctionTable
      o.stripDebugInfoSection BM.functionTable (pS1 BM sh s)).2 := rfl
  have hv1 : (pR2 BM sh o s).1 = (serializeFunctionTable
      o.stripDebugInfoSection BM.functionTable (pS1 BM sh s)).1 := rfl
  refine ⟨by rw [hv2, f1, h1L], by rw [hv2, f2, h1F], by rw [hv2, f5, h1E],
    hv2 ▸ h1A.trans f6, by rw [hv2, ft_loc, h1loc], ?_⟩
  rw [hv1, serializeFunctionTable_eq]

theorem pS7_facts (BM : BytecodeModule) (sh : List Nat)
    (o : BytecodeGenerationOptions) (s : SerState) :
    (pS7 BM sh o s).isLayout = s.isLayout ∧
    (pS7 BM sh o s).fileLength = s.fileLength ∧
    Appends s (pS7 BM sh o s) ∧
    ∃ ε, (pS7 BM sh o s).events = s.events ++ ε ∧
      ∀ e ∈ ε, SectionEv o.stripDebugInfoSection e := by
  obtain ⟨g1, g2, g3, g4, -, -⟩ := pR2_facts BM sh o s
  obtain ⟨s1, s2, s3, s4⟩ := st_state_facts BM.stringTable
    BM.identifierHashes BM.stringStorage (pR2 BM sh o s).2
  set sA := serializeStringTable BM.stringTable BM.identifierHashes
    BM.stringStorage (pR2 BM sh o s).2 with hsA
  set sB := serializeObjectBuffer BM.objectKeyBuffer BM.objectValueBuffer
    (serializeArrayBuffer BM.arrayBuffer sA) with hsB
  have hBL : sB.isLayout = sA.isLayout := rfl
  have hBF : sB.fileLength = sA.fileLength := rfl
  have hBE : sB.events = sA.events := rfl
  have hBA : Appends sA sB :=
    (Appends.writeBytes sA BM.arrayBuffer).trans
      ((Appends.writeBytes _ _).trans (Appends.writeBytes _ _))
  obtain ⟨r1, r2, r3, r4, r5⟩ := re_state_facts BM.regExpTable
    BM.regExpStorage sB
  obtain ⟨eR, hER, hPR⟩ := serializeRegExps_sectionEv o.stripDebugInfoSection
    BM.regExpTable BM.regExpStorage sB
  set sC := serializeRegExps BM.regExpTable BM.regExpStorage sB with hsC
  obtain ⟨c1, c2, c3, c4, c5⟩ := cjs_state_facts BM.cjsModuleTable
    BM.cjsModuleTableStatic sC
  obtain ⟨eC, hEC, hPC⟩ := serializeCJSModuleTable_sectionEv
    o.stripDebugInfoSection BM.cjsModuleTable BM.cjsModuleTableStatic sC
  have hS : pS7 BM sh o s =
      serializeCJSModuleTable BM.cjsModuleTable BM.cjsModuleTableStatic sC :=
    rfl
  have hstE : sA.events = s.events := by
    rw [hsA, serializeStringTable_events, g3]
  refine ⟨?_, ?_, ?_, eR ++ eC, ?_, ?_⟩
  · rw [hS, c1, r1, hBL, s1, g1]
  · rw [hS, c2, r2, hBF, s2, g2]
  · rw [hS]
    exact (((g4.trans s4).trans hBA).trans r5).trans c5
  · rw [hS, hEC, hER, hBE, hstE, List.append_assoc]
  · intro e he
    rcases List.mem_append.mp he with he | he
    · exact hPR e he
    · exact hPC e he

theorem mkFileHeader_upd (BM : BytecodeModule) (t : List BytecodeFunction)
    (sh : List Nat) (s : SerState)
    (hn : t.length = BM.functionTable.length) :
    mkFileHeader { BM with functionTable := t } sh s =
      mkFileHeader BM sh s := by
  unfold mkFileHeader
  simp [hn]

theorem pS7_loc_upd (BM : BytecodeModule) (t : List BytecodeFunction)
    (sh : List Nat) (o : BytecodeGenerationOptions) (s s' : SerState)
    (hloc : s'.loc = s.loc) (hn : t.length = BM.functionTable.length) :
    (pS7 { BM with functionTable := t } sh o s').loc =
      (pS7 BM sh o s).loc := by
  have h1 : (pS1 { BM with functionTable := t } sh s').loc =
      (pS1 BM sh s).loc := by
    obtain ⟨a, -, -, -, -⟩ := pS1_facts { BM with functionTable := t } sh s'
    obtain ⟨b, -, -, -, -⟩ := pS1_facts BM sh s
    rw [a, b, hloc]
  have h2 : (pR2 { BM with functionTable := t } sh o s').2.loc =
      (pR2 BM sh o s).2.loc := by
    show (serializeFunctionTable _ t _).2.loc = (serializeFunctionTable _ _ _).2.loc
    rw [ft_loc, ft_loc, h1, hn]
  have h3 : (serializeStringTable BM.stringTable BM.identifierHashes
      BM.stringStorage (pR2 { BM with functionTable := t } sh o s').2).loc =
      (serializeStringTable BM.stringTable BM.identifierHashes
        BM.stringStorage (pR2 BM sh o s).2).loc := by
    rw [st_loc, st_loc, h2]
  have hv : ∀ (B : BytecodeModule) (sx : SerState), pS7 B sh o sx =
      serializeCJSModuleTable B.cjsModuleTable B.cjsModuleTableStatic
        (serializeRegExps B.regExpTable B.regExpStorage
          (serializeObjectBuffer B.objectKeyBuffer B.objectValueBuffer
            (serializeArrayBuffer B.arrayBuffer
              (serializeStringTable B.stringTable B.identifierHashes
                B.stringStorage (pR2 B sh o sx).2)))) :=
    fun B sx => rfl
  rw [hv, hv, cjs_loc, cjs_loc, re_loc, re_loc]
  simp only [serializeObjectBuffer, serializeArrayBuffer, writeBytes_loc]
  rw [h3]

theorem forall₂_map_map {α β γ δ : Type} {R : α → β → Prop}
    {S : γ → δ → Prop} {l1 : List α} {l2 : List β}
    (h : List.Forall₂ R l1 l2) (fa : α → γ) (fb : β → δ)
    (hk : ∀ a b, R a b → S (fa a) (fb b)) :
    List.Forall₂ S (l1.map fa) (l2.map fb) := by
  induction h with
  | nil => exact List.Forall₂.nil
  | cons hfg htl ih => exact List.Forall₂.cons (hk _ _ hfg) ih

theorem clearFn_opcodes (strip : Bool) (f : BytecodeFunction) :
    (clearFn strip f).opcodes = f.opcodes := by
  cases strip <;> rfl

theorem clearFn_jumpTables (strip : Bool) (f : BytecodeFunction) :
    (clearFn strip f).jumpTables = f.jumpTables := by
  cases strip <;> rfl

theorem clearFn_true_flag (f : BytecodeFunction) :
    (clearFn true f).hasDebugInfo = false := rfl

theorem content_set_both (f : BytecodeFunction) (v w : Nat) :
    content { f with offset := v, infoOffset := w } = content f := rfl

theorem isDbgRec_false_ne (e : Event) (h : isDbgRec e = false) :
    ∀ off, e ≠ Event.debugOffsetsRec off := by
  cases e <;> simp_all [isDbgRec]

-- ============================ Pass views ============================

theorem pR8_view (BM : BytecodeModule) (sh : List Nat)
    (o : BytecodeGenerationOptions) (s : SerState) :
    pR8 BM sh o s =
      serializeFunctionsBytecode o (pR2 BM sh o s).1 [] (pS7 BM sh o s) := rfl

theorem pR9_view (BM : BytecodeModule) (sh : List Nat)
    (o : BytecodeGenerationOptions) (s : SerState) :
    pR9 BM sh o s =
      serializeFunctionInfoAll o (pR8 BM sh o s).1 (pR8 BM sh o s).2 := rfl

-- ============================ Pass aggregates ============================

theorem pR8_isLayout (BM : BytecodeModule) (sh : List Nat)
    (o : BytecodeGenerationOptions) (s : SerState) :
    (pR8 BM sh o s).2.isLayout = s.isLayout := by
  rw [pR8_view]
  rw [((bc_run_basic o (pR2 BM sh o s).1 [] (pS7 BM sh o s)).1).1,
    (pS7_facts BM sh o s).1]

theorem pass_fields (BM : BytecodeModule) (sh : List Nat)
    (o : BytecodeGenerationOptions) (s : SerState) :
    (serializePass BM sh o s).2.isLayout = s.isLayout ∧
    (serializePass BM sh o s).2.fileLength = s.fileLength ∧
    Appends s (serializePass BM sh o s).2 := by
  rw [serializePass_eq]
  obtain ⟨p7L, p7F, p7A, -⟩ := pS7_facts BM sh o s
  obtain ⟨⟨b1, b2, -, -⟩, bA, -⟩ :=
    bc_run_basic o (pR2 BM sh o s).1 [] (pS7 BM sh o s)
  obtain ⟨i1, i2, -, -⟩ := serializeFunctionInfoAll_fields o
    (pR8 BM sh o s).1 (pR8 BM sh o s).2
  obtain ⟨d1, d2, -, -, dout⟩ := dbg_state_facts o.stripDebugInfoSection
    BM.debugInfo (pR9 BM sh o s).2
  have hiA := serializeFunctionInfoAll_appends o (pR8 BM sh o s).1
    (pR8 BM sh o s).2
  have hdA : Appends (pR9 BM sh o s).2
      (serializeDebugInfo o.stripDebugInfoSection BM.debugInfo
        (pR9 BM sh o s).2) := by
    rw [serializeDebugInfo_eq]
    refine ((Appends.pad 4 _).trans ?_).trans (Appends.writeBytes _ _)
    exact ⟨[], by simp [emitEv], by simp [emitEv]⟩
  have hi1 : (pR9 BM sh o s).2.isLayout = (pR8 BM sh o s).2.isLayout := by
    rw [pR9_view] at *
    exact i1
  have hi2 : (pR9 BM sh o s).2.fileLength = (pR8 BM sh o s).2.fileLength := by
    rw [pR9_view] at *
    exact i2
  have bA2 : Appends (pS7 BM sh o s) (pR8 BM sh o s).2 := by
    rw [pR8_view]
    exact bA
  have hiA2 : Appends (pR8 BM sh o s).2 (pR9 BM sh o s).2 := by
    rw [pR9_view]
    exact hiA
  refine ⟨?_, ?_, ?_⟩
  · rw [d1, hi1, pR8_view, b1, p7L]
  · rw [d2, hi2, pR8_view, b2, p7F]
  · exact ((p7A.trans bA2).trans hiA2).trans hdA

theorem pass_events (BM : BytecodeModule) (sh : List Nat)
    (o : BytecodeGenerationOptions) (s : SerState) :
    ∃ ε, (serializePass BM sh o s).2.events = s.events ++ ε ∧
      ∀ e ∈ ε, evAligned e ∧
        (o.stripDebugInfoSection = true → isDbgRec e = false) := by
  rw [serializePass_eq]
  obtain ⟨-, -, -, ε7, h7, p7⟩ := pS7_facts BM sh o s
  obtain ⟨-, -, ε8, h8, p8⟩ :=
    bc_run_basic o (pR2 BM sh o s).1 [] (pS7 BM sh o s)
  obtain ⟨ε9, h9, p9⟩ := serializeFunctionInfoAll_sectionEv o
    (pR8 BM sh o s).1 (pR8 BM sh o s).2
  obtain ⟨εD, hD, pD⟩ := serializeDebugInfo_sectionEv
    o.stripDebugInfoSection o.stripDebugInfoSection BM.debugInfo
    (pR9 BM sh o s).2
  refine ⟨ε7 ++ ε8 ++ ε9 ++ εD, ?_, ?_⟩
  · rw [hD]
    rw [show (pR9 BM sh o s).2.events =
      (serializeFunctionInfoAll o (pR8 BM sh o s).1 (pR8 BM sh o s).2).2.events
      from by rw [pR9_view]]
    rw [h9]
    rw [show (pR8 BM sh o s).2.events =
      (serializeFunctionsBytecode o (pR2 BM sh o s).1 [] (pS7 BM sh o s)).2.events
      from by rw [pR8_view]]
    rw [h8, h7]
    simp [List.append_assoc]
  · intro e he
    simp only [List.mem_append] at he
    rcases he with ((he | he) | he) | he
    · obtain ⟨a, b, c⟩ := p7 e he
      exact ⟨a, fun hstrip => c hstrip⟩
    · obtain ⟨a, b⟩ := p8 e he
      exact ⟨a, fun _ => b⟩
    · obtain ⟨a, b, c⟩ := p9 e he
      exact ⟨a, fun hstrip => c hstrip⟩
    · obtain ⟨a, b, c⟩ := pD e he
      exact ⟨a, fun hstrip => c hstrip⟩

theorem pass_emit_table (BM : BytecodeModule) (sh : List Nat)
    (o : BytecodeGenerationOptions) (s : SerState)
    (hs : s.isLayout = false) :
    (serializePass BM sh o s).1.functionTable =
      BM.functionTable.map (clearFn o.stripDebugInfoSection) := by
  rw [serializePass_eq]
  show (pR9 BM sh o s).1 = _
  have h7 : (pS7 BM sh o s).isLayout = false := by
    rw [(pS7_facts BM sh o s).1, hs]
  have h8L : (pR8 BM sh o s).2.isLayout = false := by
    rw [pR8_isLayout, hs]
  rw [pR9_view, serializeFunctionInfoAll_emit o _ _ h8L, pR8_view,
    bc_emit_table o _ [] _ h7]
  exact (pR2_facts BM sh o s).2.2.2.2.2

theorem pass_table_shape (BM : BytecodeModule) (sh : List Nat)
    (o : BytecodeGenerationOptions) (s : SerState) :
    List.Forall₂ (fun f0 g => ∃ v w,
      g = { clearFn o.stripDebugInfoSection f0 with
              offset := v, infoOffset := w })
      BM.functionTable (serializePass BM sh o s).1.functionTable := by
  rw [serializePass_eq]
  show List.Forall₂ _ BM.functionTable (pR9 BM sh o s).1
  have h1 : List.Forall₂ (fun a b => b = clearFn o.stripDebugInfoSection a)
      BM.functionTable (pR2 BM sh o s).1 := by
    rw [(pR2_facts BM sh o s).2.2.2.2.2]
    exact forall₂_map_self _ _
  have h2 := bc_shape o (pR2 BM sh o s).1 [] (pS7 BM sh o s)
  have h3 := serializeFunctionInfoAll_shape o (pR8 BM sh o s).1
    (pR8 BM sh o s).2
  rw [← pR8_view] at h2
  rw [← pR9_view] at h3
  have h12 : List.Forall₂ (fun f0 c => ∃ v,
      c = { clearFn o.stripDebugInfoSection f0 with offset := v })
      BM.functionTable (pR8 BM sh o s).1 :=
    forall₂_comp h1 h2 (fun a b c hab hbc => by
      obtain ⟨v, hv⟩ := hbc
      exact ⟨v, by rw [hv, hab]⟩)
  exact forall₂_comp h12 h3 (fun a c g hac hcg => by
    obtain ⟨v, hv⟩ := hac
    obtain ⟨w, hw⟩ := hcg
    exact ⟨v, w, by rw [hw, hv]⟩)

theorem pass_layout_infoAligned (BM : BytecodeModule) (sh : List Nat)
    (o : BytecodeGenerationOptions) (s : SerState) (hs : s.isLayout = true) :
    ∀ g ∈ (serializePass BM sh o s).1.functionTable,
      g.infoOffset % INFO_ALIGNMENT = 0 := by
  rw [serializePass_eq]
  intro g hg
  have h8L : (pR8 BM sh o s).2.isLayout = true := by
    rw [pR8_isLayout, hs]
  have := serializeFunctionInfoAll_aligned o (pR8 BM sh o s).1
    (pR8 BM sh o s).2 h8L g
  rw [← pR9_view] at this
  exact this hg

theorem pR9_appends (BM : BytecodeModule) (sh : List Nat)
    (o : BytecodeGenerationOptions) (s : SerState) :
    Appends s (pR9 BM sh o s).2 := by
  obtain ⟨-, -, p7A, -⟩ := pS7_facts BM sh o s
  obtain ⟨-, bA, -⟩ := bc_run_basic o (pR2 BM sh o s).1 [] (pS7 BM sh o s)
  have bA2 : Appends (pS7 BM sh o s) (pR8 BM sh o s).2 := by
    rw [pR8_view]
    exact bA
  have hiA2 : Appends (pR8 BM sh o s).2 (pR9 BM sh o s).2 := by
    rw [pR9_view]
    exact serializeFunctionInfoAll_appends o (pR8 BM sh o s).1
      (pR8 BM sh o s).2
  exact (p7A.trans bA2).trans hiA2

theorem pS7_view (BM : BytecodeModule) (sh : List Nat)
    (o : BytecodeGenerationOptions) (s : SerState) :
    pS7 BM sh o s =
      serializeCJSModuleTable BM.cjsModuleTable BM.cjsModuleTableStatic
        (serializeRegExps BM.regExpTable BM.regExpStorage
          (serializeObjectBuffer BM.objectKeyBuffer BM.objectValueBuffer
            (serializeArrayBuffer BM.arrayBuffer
              (serializeStringTable BM.stringTable BM.identifierHashes
                BM.stringStorage (pR2 BM sh o s).2)))) := rfl

/-- In LAYOUT mode the whole pass is a function of the module content:
replacing the function table by one with equal post-strip content leaves
the entire pass output unchanged. -/
theorem pass_layout_det (BM : BytecodeModule) (t : List BytecodeFunction)
    (sh : List Nat) (o : BytecodeGenerationOptions) (s : SerState)
    (hs : s.isLayout = true)
    (hcl : List.Forall₂ (fun a b => content a = content b)
      (t.map (clearFn o.stripDebugInfoSection))
      (BM.functionTable.map (clearFn o.stripDebugInfoSection))) :
    serializePass { BM with functionTable := t } sh o s =
      serializePass BM sh o s := by
  have hn : t.length = BM.functionTable.length := by
    have := List.Forall₂.length_eq hcl
    simpa using this
  have hftproj : ({ BM with functionTable := t } :
      BytecodeModule).functionTable = t := rfl
  have h1 : pS1 { BM with functionTable := t } sh s = pS1 BM sh s := by
    unfold pS1
    rw [mkFileHeader_upd BM t sh s hn]
  have hfix : ∀ (l : List BytecodeFunction),
      l.map (fun f => encodeSmallFuncHeader
        (clearFn o.stripDebugInfoSection f)) =
      (l.map (clearFn o.stripDebugInfoSection)).map encodeSmallFuncHeader :=
    fun l => by rw [List.map_map]; rfl
  have hbytes : (t.map (clearFn o.stripDebugInfoSection)).map
      encodeSmallFuncHeader =
      (BM.functionTable.map (clearFn o.stripDebugInfoSection)).map
        encodeSmallFuncHeader :=
    forall₂_map_eq hcl encodeSmallFuncHeader
      (fun a b hab => encodeSmallFuncHeader_content hab)
  have hpr2_2 : (pR2 { BM with functionTable := t } sh o s).2 =
      (pR2 BM sh o s).2 := by
    have hviewT : (pR2 { BM with functionTable := t } sh o s).2 =
        (serializeFunctionTable o.stripDebugInfoSection t
          (pS1 { BM with functionTable := t } sh s)).2 := rfl
    have hviewB : (pR2 BM sh o s).2 =
        (serializeFunctionTable o.stripDebugInfoSection BM.functionTable
          (pS1 BM sh s)).2 := rfl
    rw [hviewT, hviewB, h1, serializeFunctionTable_eq,
      serializeFunctionTable_eq, hfix t, hfix BM.functionTable, hbytes]
  have hpr2_1 : (pR2 { BM with functionTable := t } sh o s).1 =
      t.map (clearFn o.stripDebugInfoSection) := by
    have := (pR2_facts { BM with functionTable := t } sh o s).2.2.2.2.2
    rw [hftproj] at this
    exact this
  have h7 : pS7 { BM with functionTable := t } sh o s = pS7 BM sh o s := by
    rw [pS7_view, pS7_view, hpr2_2]
  have hS7L : (pS7 BM sh o s).isLayout = true := by
    rw [(pS7_facts BM sh o s).1, hs]
  have hcl2 : List.Forall₂ (fun a b => content a = content b)
      (pR2 { BM with functionTable := t } sh o s).1 (pR2 BM sh o s).1 := by
    rw [hpr2_1, (pR2_facts BM sh o s).2.2.2.2.2]
    exact hcl
  have hdet := bc_layout_det o hcl2 [] (pS7 BM sh o s) hS7L
  have h8_2 : (pR8 { BM with functionTable := t } sh o s).2 =
      (pR8 BM sh o s).2 := by
    rw [pR8_view, pR8_view, h7]
    exact hdet.1
  have h8_t : List.Forall₂
      (fun a b => content a = content b ∧ a.offset = b.offset)
      (pR8 { BM with functionTable := t } sh o s).1
      (pR8 BM sh o s).1 := by
    rw [pR8_view, pR8_view, h7]
    exact hdet.2
  have h8L : (pR8 BM sh o s).2.isLayout = true := by
    rw [pR8_isLayout, hs]
  have h9 : pR9 { BM with functionTable := t } sh o s = pR9 BM sh o s := by
    rw [pR9_view, pR9_view, h8_2]
    exact serializeFunctionInfoAll_det o h8_t _ h8L
  rw [serializePass_eq, serializePass_eq, h9]

theorem serialize_eq (BM : BytecodeModule) (sh : List Nat)
    (o : BytecodeGenerationOptions) :
    serialize BM sh o =
      serializePass (serializePass BM sh o initState).1 sh o
        (finishLayout (serializePass BM sh o initState).2) := by
  have h2 : (serializePass BM sh o initState).2.isLayout = true := by
    rw [(pass_fields BM sh o initState).1]
    rfl
  simp only [serialize, h2, if_true]

end Hermes

namespace Hermes

-- ============================ Claims C2, C5, C9, C10 ============================

/-- Claim C2: the CJS module count written in the file header is negative
iff the static CJS table is non-empty, in which case its magnitude is the
static table's entry count; otherwise it is non-negative and equals the
dynamic table's entry count.  (Table sizes are bounded by the 32-bit
header field, as for any realistic module.) -/
theorem cjs_count_exclusivity (BM : BytecodeModule) (sh : List Nat)
    (s : SerState) (hstat : BM.cjsModuleTableStatic.length ≤ 2147483648)
    (hdyn : BM.cjsModuleTable.length < 2147483648) :
    ((mkFileHeader BM sh s).cjsModuleCount < 0 ↔ BM.cjsModuleTableStatic ≠ []) ∧
    (BM.cjsModuleTableStatic ≠ [] →
      (mkFileHeader BM sh s).cjsModuleCount =
        -(BM.cjsModuleTableStatic.length : Int)) ∧
    (BM.cjsModuleTableStatic = [] →
      0 ≤ (mkFileHeader BM sh s).cjsModuleCount ∧
      (mkFileHeader BM sh s).cjsModuleCount = (BM.cjsModuleTable.length : Int)) := by
  have hh : (mkFileHeader BM sh s).cjsModuleCount =
      cjsModuleCountOf BM.cjsModuleTable BM.cjsModuleTableStatic := rfl
  rcases eq_or_ne BM.cjsModuleTableStatic [] with he | he
  · have hd := cjsCount_dynamic BM.cjsModuleTable BM.cjsModuleTableStatic he hdyn
    rw [hh, hd]
    refine ⟨?_, fun h => absurd he h, fun _ => ⟨Int.natCast_nonneg _, rfl⟩⟩
    simp [he]
  · have hs := cjsCount_static BM.cjsModuleTable BM.cjsModuleTableStatic he hstat
    have hpos : 1 ≤ BM.cjsModuleTableStatic.length := by
      cases hx : BM.cjsModuleTableStatic with
      | nil => exact absurd hx he
      | cons a l => simp
    refine ⟨?_, fun _ => by rw [hh, hs], fun h => absurd h he⟩
    rw [hh, hs]
    constructor
    · intro _; exact he
    · intro _; omega

def sampleModC2 : BytecodeModule :=
  ⟨[], 0, [], [], [], [], [], [], [], [], [(1, 2)], [(3, 4)], 0,
   ⟨[], [], [], 0, []⟩, 0⟩

theorem cjs_count_exclusivity_witness :
    sampleModC2.cjsModuleTableStatic.length ≤ 2147483648 ∧
    sampleModC2.cjsModuleTable.length < 2147483648 ∧
    (((mkFileHeader sampleModC2 [] initState).cjsModuleCount < 0 ↔
        sampleModC2.cjsModuleTableStatic ≠ []) ∧
      (sampleModC2.cjsModuleTableStatic ≠ [] →
        (mkFileHeader sampleModC2 [] initState).cjsModuleCount =
          -(sampleModC2.cjsModuleTableStatic.length : Int)) ∧
      (sampleModC2.cjsModuleTableStatic = [] →
        0 ≤ (mkFileHeader sampleModC2 [] initState).cjsModuleCount ∧
        (mkFileHeader sampleModC2 [] initState).cjsModuleCount =
          (sampleModC2.cjsModuleTable.length : Int))) :=
  ⟨by decide, by decide,
    cjs_count_exclusivity sampleModC2 [] initState (by decide) (by decide)⟩

/-- Claim C5: the string-table byte size surfaced in the file header
counts only the compact descriptor records and the overflow side-table
entries; the identifier hashes and the raw storage written immediately
afterwards in the same section are excluded (they advance the stream
beyond the measured size). -/
theorem string_table_bytes_measured (tbl : List StringTableEntry)
    (hashes storage : List Nat) (s : SerState) :
    (serializeStringTable tbl hashes storage s).stringTableBytes =
      4 * tbl.length + 8 * (tbl.filter (fun e => isOverflowed e)).length ∧
    (serializeStringTable tbl hashes storage s).loc =
      s.loc + (4 * tbl.length + 8 * (tbl.filter (fun e => isOverflowed e)).length)
        + 4 * hashes.length + storage.length ∧
    (∀ (BM : BytecodeModule) (sh : List Nat) (st : SerState),
      (mkFileHeader BM sh st).stringTableBytes = st.stringTableBytes) := by
  obtain ⟨δ, heq, hlen⟩ := serializeStringTable_spec tbl hashes storage s
  have hcount : (ovEntries tbl).length =
      (tbl.filter (fun e => isOverflowed e)).length := by
    simp [ovEntries]
  rw [heq]
  refine ⟨by simp [hcount], ?_, fun BM sh st => rfl⟩
  simp only [writeBytes_loc]
  rw [hlen, hcount]
  show s.loc + _ = _
  ring

/-- Claim C9: a function whose header fits the compact encoding, with no
exception handlers and no retained debug info, contributes zero bytes to
the function-info region; its recorded info offset is the current
position aligned up, so consecutive such functions record the same
info offset. -/
theorem empty_info_block (o : BytecodeGenerationOptions)
    (f : BytecodeFunction) (s : SerState)
    (hov : f.overflowed = false) (heh : f.exceptionHandlers = [])
    (hdbg : o.stripDebugInfoSection = true ∨ f.hasDebugInfo = false)
    (hlay : s.isLayout = true) :
    (serializeFunctionInfo o f s).2 = s ∧
    ((serializeFunctionInfo o f s).1).infoOffset =
      alignTo s.loc INFO_ALIGNMENT ∧
    (∀ g : BytecodeFunction, g.overflowed = false →
      g.exceptionHandlers = [] →
      (o.stripDebugInfoSection = true ∨ g.hasDebugInfo = false) →
      ((serializeFunctionInfo o g (serializeFunctionInfo o f s).2).1).infoOffset =
        ((serializeFunctionInfo o f s).1).infoOffset) := by
  have hoff : ∀ h : BytecodeFunction,
      ((serializeFunctionInfo o h s).1).infoOffset =
        alignTo s.loc INFO_ALIGNMENT := by
    intro h
    simp [serializeFunctionInfo, hlay]
  have hstate : ∀ h : BytecodeFunction, h.overflowed = false →
      h.exceptionHandlers = [] →
      (o.stripDebugInfoSection = true ∨ h.hasDebugInfo = false) →
      (serializeFunctionInfo o h s).2 = s := by
    intro h h1 h2 h3
    have hcond : (o.stripDebugInfoSection || !h.hasDebugInfo) = true := by
      rcases h3 with h3 | h3 <;> simp [h3]
    simp [serializeFunctionInfo, hlay, h1, h2, serializeExceptionHandlerTable,
      BytecodeFunction.hasExceptionHandlers, serializeDebugOffsets, hcond]
  refine ⟨hstate f hov heh hdbg, hoff f, ?_⟩
  intro g h1 h2 h3
  rw [hstate f hov heh hdbg, hoff g, hoff f]

def sampleFnC9 : BytecodeFunction := ⟨[1], [], [], ⟨0, 0⟩, true, false, 0, 0⟩

def sampleOptsC9 : BytecodeGenerationOptions := ⟨true, false, 0⟩

theorem empty_info_block_witness :
    sampleFnC9.overflowed = false ∧
    sampleFnC9.exceptionHandlers = [] ∧
    (sampleOptsC9.stripDebugInfoSection = true ∨
      sampleFnC9.hasDebugInfo = false) ∧
    initState.isLayout = true ∧
    ((serializeFunctionInfo sampleOptsC9 sampleFnC9 initState).2 = initState ∧
      ((serializeFunctionInfo sampleOptsC9 sampleFnC9 initState).1).infoOffset =
        alignTo initState.loc INFO_ALIGNMENT ∧
      (∀ g : BytecodeFunction, g.overflowed = false →
        g.exceptionHandlers = [] →
        (sampleOptsC9.stripDebugInfoSection = true ∨ g.hasDebugInfo = false) →
        ((serializeFunctionInfo sampleOptsC9 g
            (serializeFunctionInfo sampleOptsC9 sampleFnC9 initState).2).1).infoOffset =
          ((serializeFunctionInfo sampleOptsC9 sampleFnC9 initState).1).infoOffset)) :=
  ⟨rfl, rfl, Or.inl rfl, rfl,
    empty_info_block sampleOptsC9 sampleFnC9 initState rfl rfl (Or.inl rfl) rfl⟩

/-- Claim C10: serializeCJSModuleTable never checks that the two CJS
tables are mutually exclusive: it unconditionally writes every dynamic
pair in table order followed by the entire static table, while the
header count describes only the static table when it is non-empty. -/
theorem cjs_table_unconditional (dyn stat : List (Nat × Nat)) (s : SerState) :
    (serializeCJSModuleTable dyn stat s).out =
      s.out ++ List.replicate (padAmount s.loc 4) 0 ++
        (dyn.map encodeU32Pair).flatten ++ (stat.map encodeU32Pair).flatten ∧
    (stat ≠ [] → stat.length ≤ 2147483648 →
      cjsModuleCountOf dyn stat = -(stat.length : Int)) := by
  constructor
  · simp [serializeCJSModuleTable, pad, List.append_assoc]
  · intro h1 h2
    exact cjsCount_static dyn stat h1 h2

/-- Claim C7: in every emitted file, recorded per-function info offsets
and the starts of every emitted debug-offset record, overflow header and
exception-handler table are INFO_ALIGNMENT-aligned, and the regexp, CJS
and debug-info sections start 4-aligned. -/
theorem alignment_invariant (BM : BytecodeModule) (sh : List Nat)
    (o : BytecodeGenerationOptions) :
    (∀ f ∈ (serialize BM sh o).1.functionTable,
      f.infoOffset % INFO_ALIGNMENT = 0) ∧
    (∀ e ∈ (serialize BM sh o).2.events, evAligned e) := by
  rw [serialize_eq]
  constructor
  · intro f hf
    rw [pass_emit_table _ sh o _ rfl] at hf
    obtain ⟨g, hg, hgf⟩ := List.mem_map.mp hf
    have hal := pass_layout_infoAligned BM sh o initState rfl g hg
    rw [← hgf, clearFn_infoOffset]
    exact hal
  · intro e he
    obtain ⟨ε, hε, hp⟩ := pass_events (serializePass BM sh o initState).1
      sh o (finishLayout (serializePass BM sh o initState).2)
    rw [hε] at he
    have hemp : (finishLayout (serializePass BM sh o initState).2).events
        = [] := rfl
    rw [hemp, List.nil_append] at he
    exact (hp e he).1

/-- Claim C6: with debug stripping configured, on a module all of whose
functions carry debug info, every function's debug flag is cleared in
place before its compact header is encoded, the debug-info section is a
header whose five fields are all zero, and no per-function debug-offset
record is emitted. -/
theorem strip_debug_scenario (BM : BytecodeModule) (sh : List Nat)
    (o : BytecodeGenerationOptions) (hstrip : o.stripDebugInfoSection = true)
    (hall : ∀ f ∈ BM.functionTable, f.hasDebugInfo = true) :
    (∀ f ∈ (serialize BM sh o).1.functionTable, f.hasDebugInfo = false) ∧
    (serialize BM sh o).2.out.length =
      (serialize BM sh o).2.debugInfoOffset + 20 ∧
    (serialize BM sh o).2.out.drop (serialize BM sh o).2.debugInfoOffset =
      encodeDebugInfoHeader ⟨0, 0, 0, 0, 0⟩ ∧
    (∀ e ∈ (serialize BM sh o).2.events, ∀ off,
      e ≠ Event.debugOffsetsRec off) ∧
    (∀ (t : List BytecodeFunction) (s : SerState),
      (serializeFunctionTable true t s).2.out =
        s.out ++ (t.map (fun f =>
          encodeSmallFuncHeader (clearFn true f))).flatten) := by
  rw [serialize_eq]
  set B1 := (serializePass BM sh o initState).1 with hB1def
  set sE := finishLayout (serializePass BM sh o initState).2 with hsEdef
  have hsEL : sE.isLayout = false := rfl
  have hsync0 : sE.loc = sE.out.length := rfl
  have hsync9 : (pR9 B1 sh o sE).2.loc = (pR9 B1 sh o sE).2.out.length :=
    (pR9_appends B1 sh o sE).sync hsync0
  obtain ⟨-, -, -, d4, d5⟩ := dbg_state_facts o.stripDebugInfoSection
    B1.debugInfo (pR9 B1 sh o sE).2
  have hview2 : (serializePass B1 sh o sE).2 =
      serializeDebugInfo o.stripDebugInfoSection B1.debugInfo
        (pR9 B1 sh o sE).2 := by
    rw [serializePass_eq]
  have hdb : debugBytes o.stripDebugInfoSection B1.debugInfo =
      encodeDebugInfoHeader ⟨0, 0, 0, 0, 0⟩ := by
    rw [hstrip]
    rfl
  refine ⟨?_, ?_, ?_, ?_, ?_⟩
  · intro f hf
    rw [pass_emit_table B1 sh o sE hsEL, hstrip] at hf
    obtain ⟨g, hg, hgf⟩ := List.mem_map.mp hf
    rw [← hgf]
    rfl
  · rw [hview2, d5, d4, hdb]
    simp only [List.length_append, List.length_replicate,
      encodeDebugInfoHeader_length]
    rw [hsync9]
  · rw [hview2, d5, d4, hdb, List.append_assoc]
    have hlen : (pR9 B1 sh o sE).2.loc +
        padAmount (pR9 B1 sh o sE).2.loc 4 =
        ((pR9 B1 sh o sE).2.out ++
          List.replicate (padAmount (pR9 B1 sh o sE).2.loc 4) 0).length := by
      simp [hsync9]
    rw [← List.append_assoc, hlen, List.drop_left]
  · intro e he off
    obtain ⟨ε, hε, hp⟩ := pass_events B1 sh o sE
    rw [hε] at he
    have hemp : sE.events = [] := rfl
    rw [hemp, List.nil_append] at he
    exact isDbgRec_false_ne e ((hp e he).2 hstrip) off
  · intro t s
    rw [serializeFunctionTable_eq]
    rfl

theorem forall₂_flip {α β : Type} {R : α → β → Prop} {l1 : List α}
    {l2 : List β} (h : List.Forall₂ R l1 l2) :
    List.Forall₂ (fun b a => R a b) l2 l1 := by
  induction h with
  | nil => exact List.Forall₂.nil
  | cons hfg htl ih => exact List.Forall₂.cons hfg ih

/-- Claim C8: the LAYOUT pass is idempotent: running it a second time on
the module it just mutated reproduces the identical pass output — in
particular every recorded opcode offset and info offset, and the total
length, are unchanged. -/
theorem layout_idempotent (BM : BytecodeModule) (sh : List Nat)
    (o : BytecodeGenerationOptions) :
    serializePass (serializePass BM sh o initState).1 sh o initState =
      serializePass BM sh o initState ∧
    (serializePass (serializePass BM sh o initState).1 sh o
        initState).1.functionTable.map (fun f => (f.offset, f.infoOffset)) =
      (serializePass BM sh o
        initState).1.functionTable.map (fun f => (f.offset, f.infoOffset)) ∧
    (serializePass (serializePass BM sh o initState).1 sh o
        initState).2.loc = (serializePass BM sh o initState).2.loc := by
  have hB1 : (serializePass BM sh o initState).1 =
      { BM with functionTable :=
        (serializePass BM sh o initState).1.functionTable } := by
    rw [serializePass_eq]
  have hshape := pass_table_shape BM sh o initState
  have hcl : List.Forall₂ (fun a b => content a = content b)
      ((serializePass BM sh o initState).1.functionTable.map
        (clearFn o.stripDebugInfoSection))
      (BM.functionTable.map (clearFn o.stripDebugInfoSection)) := by
    refine forall₂_map_map (forall₂_flip hshape)
      (clearFn o.stripDebugInfoSection) (clearFn o.stripDebugInfoSection)
      (fun g f0 hR => ?_)
    obtain ⟨v, w, hg⟩ := hR
    have h1 : content g = content (clearFn o.stripDebugInfoSection f0) := by
      rw [hg]
      exact content_set_both _ v w
    have h2 := content_clearFn o.stripDebugInfoSection h1
    rw [clearFn_clearFn] at h2
    exact h2
  have hmain : serializePass (serializePass BM sh o initState).1 sh o
      initState = serializePass BM sh o initState := by
    calc serializePass (serializePass BM sh o initState).1 sh o initState
        = serializePass { BM with functionTable :=
            (serializePass BM sh o initState).1.functionTable } sh o
            initState := by rw [← hB1]
      _ = serializePass BM sh o initState :=
          pass_layout_det BM _ sh o initState rfl hcl
  exact ⟨hmain, by rw [hmain], by rw [hmain]⟩

/-- With deduplication disabled, the pass advances the position by an
amount depending only on the module content, not on the recorded
offsets, the mode or the measured header fields. -/
theorem pass_loc_noopt (BM : BytecodeModule) (t : List BytecodeFunction)
    (sh : List Nat) (o : BytecodeGenerationOptions)
    (hopt : o.optimizationEnabled = false) (s s' : SerState)
    (hloc : s'.loc = s.loc)
    (hcl : List.Forall₂ (fun a b => content a = content b)
      (t.map (clearFn o.stripDebugInfoSection))
      (BM.functionTable.map (clearFn o.stripDebugInfoSection))) :
    (serializePass { BM with functionTable := t } sh o s').2.loc =
      (serializePass BM sh o s).2.loc := by
  have hn : t.length = BM.functionTable.length := by
    have := List.Forall₂.length_eq hcl
    simpa using this
  have hftproj : ({ BM with functionTable := t } :
      BytecodeModule).functionTable = t := rfl
  have h7 := pS7_loc_upd BM t sh o s s' hloc hn
  have hpr2T : (pR2 { BM with functionTable := t } sh o s').1 =
      t.map (clearFn o.stripDebugInfoSection) := by
    have := (pR2_facts { BM with functionTable := t } sh o s').2.2.2.2.2
    rw [hftproj] at this
    exact this
  have hpr2B : (pR2 BM sh o s).1 =
      BM.functionTable.map (clearFn o.stripDebugInfoSection) :=
    (pR2_facts BM sh o s).2.2.2.2.2
  have hcl2 : List.Forall₂ (fun a b => content a = content b)
      (pR2 { BM with functionTable := t } sh o s').1 (pR2 BM sh o s).1 := by
    rw [hpr2T, hpr2B]
    exact hcl
  have hkeys : (pR2 { BM with functionTable := t } sh o s').1.map dedupKey =
      (pR2 BM sh o s).1.map dedupKey :=
    forall₂_map_eq hcl2 dedupKey (fun a b hab => dedupKey_content hab)
  have h8 : (pR8 { BM with functionTable := t } sh o s').2.loc =
      (pR8 BM sh o s).2.loc := by
    rw [pR8_view, pR8_view, bc_noopt_loc o hopt, bc_noopt_loc o hopt,
      hkeys, h7]
  have hshT := bc_shape o (pR2 { BM with functionTable := t } sh o s').1 []
    (pS7 { BM with functionTable := t } sh o s')
  have hshB := bc_shape o (pR2 BM sh o s).1 [] (pS7 BM sh o s)
  rw [← pR8_view] at hshT hshB
  have hAB : List.Forall₂ (fun a b => content a = content b)
      (pR8 { BM with functionTable := t } sh o s').1 (pR8 BM sh o s).1 := by
    have step1 : List.Forall₂ (fun a b => content a = content b)
        (pR8 { BM with functionTable := t } sh o s').1 (pR2 BM sh o s).1 :=
      forall₂_comp (forall₂_flip hshT) hcl2 (fun a b c hab hbc => by
        obtain ⟨v, hv⟩ := hab
        rw [hv, content_setOffset]
        exact hbc)
    exact forall₂_comp step1 hshB (fun a b c hab hbc => by
      obtain ⟨v, hv⟩ := hbc
      rw [hv, content_setOffset]
      exact hab)
  have h9 : (pR9 { BM with functionTable := t } sh o s').2.loc =
      (pR9 BM sh o s).2.loc := by
    rw [pR9_view, pR9_view, serializeFunctionInfoAll_loc,
      serializeFunctionInfoAll_loc,
      infoAllEnd_content o.stripDebugInfoSection hAB, h8]
  have hdi : ({ BM with functionTable := t } :
      BytecodeModule).debugInfo = BM.debugInfo := rfl
  rw [serializePass_eq, serializePass_eq]
  show (serializeDebugInfo _ _ _).loc = (serializeDebugInfo _ _ _).loc
  rw [dbg_loc, dbg_loc, hdi, h9]

/-- Claim C3: with deduplication disabled, the number of bytes the EMIT
pass produces equals exactly the file length recorded by finishLayout at
the end of the LAYOUT pass. -/
theorem twopass_length (BM : BytecodeModule) (sh : List Nat)
    (o : BytecodeGenerationOptions)
    (hopt : o.optimizationEnabled = false) :
    (serialize BM sh o).2.out.length = (serialize BM sh o).2.fileLength ∧
    (serialize BM sh o).2.fileLength =
      (serializePass BM sh o initState).2.loc := by
  rw [serialize_eq]
  have hB1 : (serializePass BM sh o initState).1 =
      { BM with functionTable :=
        (serializePass BM sh o initState).1.functionTable } := by
    rw [serializePass_eq]
  have hshape := pass_table_shape BM sh o initState
  have hcl : List.Forall₂ (fun a b => content a = content b)
      ((serializePass BM sh o initState).1.functionTable.map
        (clearFn o.stripDebugInfoSection))
      (BM.functionTable.map (clearFn o.stripDebugInfoSection)) := by
    refine forall₂_map_map (forall₂_flip hshape)
      (clearFn o.stripDebugInfoSection) (clearFn o.stripDebugInfoSection)
      (fun g f0 hR => ?_)
    obtain ⟨v, w, hg⟩ := hR
    have h1 : content g = content (clearFn o.stripDebugInfoSection f0) := by
      rw [hg]
      exact content_set_both _ v w
    have h2 := content_clearFn o.stripDebugInfoSection h1
    rw [clearFn_clearFn] at h2
    exact h2
  have hloceq : (serializePass (serializePass BM sh o initState).1 sh o
      (finishLayout (serializePass BM sh o initState).2)).2.loc =
      (serializePass BM sh o initState).2.loc := by
    calc (serializePass (serializePass BM sh o initState).1 sh o
        (finishLayout (serializePass BM sh o initState).2)).2.loc
        = (serializePass { BM with functionTable :=
            (serializePass BM sh o initState).1.functionTable } sh o
            (finishLayout (serializePass BM sh o initState).2)).2.loc := by
          rw [← hB1]
      _ = (serializePass BM sh o initState).2.loc :=
          pass_loc_noopt BM _ sh o hopt initState _ rfl hcl
  obtain ⟨-, hFL, hApp⟩ := pass_fields (serializePass BM sh o initState).1
    sh o (finishLayout (serializePass BM sh o initState).2)
  have hsync := hApp.sync rfl
  have hsEF : (finishLayout (serializePass BM sh o initState).2).fileLength =
      (serializePass BM sh o initState).2.loc := rfl
  constructor
  · rw [← hsync, hFL, hsEF, hloceq]
  · rw [hFL, hsEF]

def sampleModC3 : BytecodeModule :=
  ⟨[⟨[1, 2], [7], [], ⟨0, 0⟩, false, false, 0, 0⟩,
    ⟨[1, 2], [7], [], ⟨0, 0⟩, false, false, 0, 0⟩], 0,
   [⟨0, 3⟩], [5], [9, 9, 9], [(0, 1)], [4], [1], [2], [3], [], [], 0,
   ⟨[], [], [], 0, []⟩, 0⟩

def sampleOptsC3 : BytecodeGenerationOptions := ⟨false, false, 0⟩

theorem twopass_length_witness :
    sampleOptsC3.optimizationEnabled = false ∧
    ((serialize sampleModC3 [] sampleOptsC3).2.out.length =
      (serialize sampleModC3 [] sampleOptsC3).2.fileLength ∧
    (serialize sampleModC3 [] sampleOptsC3).2.fileLength =
      (serializePass sampleModC3 [] sampleOptsC3 initState).2.loc) :=
  ⟨rfl, twopass_length sampleModC3 [] sampleOptsC3 rfl⟩

def sampleModC6 : BytecodeModule :=
  ⟨[⟨[1], [], [], ⟨2, 3⟩, true, false, 0, 0⟩,
    ⟨[4], [], [], ⟨5, 6⟩, true, false, 0, 0⟩], 0,
   [], [], [], [], [], [], [], [], [], [], 0, ⟨[], [], [], 0, []⟩, 0⟩

def sampleOptsC6 : BytecodeGenerationOptions := ⟨true, false, 0⟩

theorem strip_debug_scenario_witness :
    sampleOptsC6.stripDebugInfoSection = true ∧
    (∀ f ∈ sampleModC6.functionTable, f.hasDebugInfo = true) ∧
    ((∀ f ∈ (serialize sampleModC6 [] sampleOptsC6).1.functionTable,
        f.hasDebugInfo = false) ∧
      (serialize sampleModC6 [] sampleOptsC6).2.out.length =
        (serialize sampleModC6 [] sampleOptsC6).2.debugInfoOffset + 20 ∧
      (serialize sampleModC6 [] sampleOptsC6).2.out.drop
          (serialize sampleModC6 [] sampleOptsC6).2.debugInfoOffset =
        encodeDebugInfoHeader ⟨0, 0, 0, 0, 0⟩ ∧
      (∀ e ∈ (serialize sampleModC6 [] sampleOptsC6).2.events, ∀ off,
        e ≠ Event.debugOffsetsRec off) ∧
      (∀ (t : List BytecodeFunction) (s : SerState),
        (serializeFunctionTable true t s).2.out =
          s.out ++ (t.map (fun f =>
            encodeSmallFuncHeader (clearFn true f))).flatten)) :=
  ⟨rfl, by decide,
    strip_debug_scenario sampleModC6 [] sampleOptsC6 rfl (by decide)⟩

theorem cjs_table_unconditional_witness :
    (serializeCJSModuleTable [(1, 2)] [(3, 4)] initState).out =
      initState.out ++ List.replicate (padAmount initState.loc 4) 0 ++
        ([(1, 2)].map encodeU32Pair).flatten ++
        ([(3, 4)].map encodeU32Pair).flatten ∧
    (([(3, 4)] : List (Nat × Nat)) ≠ [] →
      ([(3, 4)] : List (Nat × Nat)).length ≤ 2147483648 →
      cjsModuleCountOf [(1, 2)] [(3, 4)] = -(([(3, 4)] : List (Nat × Nat)).length : Int)) :=
  cjs_table_unconditional [(1, 2)] [(3, 4)] initState

-- ============================ Dedup assembly (C1/C4 core) ============================

/-- Full-serialization assembly of the deduplication facts: with
optimization on and non-empty bodies there is a dedup map `mf` whose
entries are exactly the emitted bodies of the final output, with
distinct keys and strictly increasing (hence distinct) offsets; the
emitted trace's reuse decisions match the layout pass exactly; and every
function of the final module records the map entry of its content. -/
theorem serialize_dedup_assembly (BM : BytecodeModule) (sh : List Nat)
    (o : BytecodeGenerationOptions)
    (hopt : o.optimizationEnabled = true)
    (hne : ∀ f ∈ BM.functionTable, f.opcodes ≠ [] ∨ f.jumpTables ≠ []) :
    ∃ mf : List (DedupKey × Nat),
      (mf.map Prod.fst).Nodup ∧
      List.Pairwise (fun a b => a.2 < b.2) mf ∧
      bodyEmitsOf (serialize BM sh o).2.events = mf ∧
      bodyFlagsOf (serialize BM sh o).2.events =
        bodyFlagsOf (serializePass BM sh o initState).2.events ∧
      (bodyFlagsOf (serializePass BM sh o initState).2.events).length =
        BM.functionTable.length ∧
      (∀ g ∈ (serialize BM sh o).1.functionTable,
        lookupKey mf (dedupKey g) = some g.offset) := by
  have hB1 : (serializePass BM sh o initState).1 =
      { BM with functionTable :=
        (serializePass BM sh o initState).1.functionTable } := by
    rw [serializePass_eq]
  have hB1ft : (serializePass BM sh o initState).1.functionTable =
      (pR9 BM sh o initState).1 := by
    rw [serializePass_eq]
  have hshape := pass_table_shape BM sh o initState
  have hn9 : (serializePass BM sh o initState).1.functionTable.length =
      BM.functionTable.length := (List.Forall₂.length_eq hshape).symm
  have hpr2B : (pR2 BM sh o initState).1 =
      BM.functionTable.map (clearFn o.stripDebugInfoSection) :=
    (pR2_facts BM sh o initState).2.2.2.2.2
  have hneT : ∀ f ∈ (pR2 BM sh o initState).1,
      f.opcodes ≠ [] ∨ f.jumpTables ≠ [] := by
    intro f hf
    rw [hpr2B] at hf
    obtain ⟨g, hg, hgf⟩ := List.mem_map.mp hf
    rw [← hgf, clearFn_opcodes, clearFn_jumpTables]
    exact hne g hg
  have hS7L : (pS7 BM sh o initState).isLayout = true := by
    rw [(pS7_facts BM sh o initState).1]
    rfl
  have hsEL : (finishLayout (serializePass BM sh o initState).2).isLayout
      = false := rfl
  have hS7E : (pS7 (serializePass BM sh o initState).1 sh o
      (finishLayout (serializePass BM sh o initState).2)).isLayout
      = false := by
    rw [(pS7_facts _ sh o _).1, hsEL]
  have hS7loc : (pS7 (serializePass BM sh o initState).1 sh o
      (finishLayout (serializePass BM sh o initState).2)).loc =
      (pS7 BM sh o initState).loc := by
    calc (pS7 (serializePass BM sh o initState).1 sh o
        (finishLayout (serializePass BM sh o initState).2)).loc
        = (pS7 { BM with functionTable :=
            (serializePass BM sh o initState).1.functionTable } sh o
            (finishLayout (serializePass BM sh o initState).2)).loc := by
          rw [← hB1]
      _ = (pS7 BM sh o initState).loc :=
          pS7_loc_upd BM _ sh o initState _ rfl hn9
  have hpr2E : (pR2 (serializePass BM sh o initState).1 sh o
      (finishLayout (serializePass BM sh o initState).2)).1 =
      (serializePass BM sh o initState).1.functionTable.map
        (clearFn o.stripDebugInfoSection) :=
    (pR2_facts _ sh o _).2.2.2.2.2
  have hinfoShape := serializeFunctionInfoAll_shape o
    (pR8 BM sh o initState).1 (pR8 BM sh o initState).2
  rw [← pR9_view] at hinfoShape
  have hrel : List.Forall₂ EmitRel (pR8 BM sh o initState).1
      (pR2 (serializePass BM sh o initState).1 sh o
        (finishLayout (serializePass BM sh o initState).2)).1 := by
    rw [hpr2E, hB1ft]
    refine forall₂_comp hinfoShape
      (forall₂_map_self (clearFn o.stripDebugInfoSection)
        (pR9 BM sh o initState).1) ?_
    intro g2 g3 g4 h23 h34
    obtain ⟨w, hw⟩ := h23
    refine ⟨?_, ?_, ?_⟩
    · rw [h34, clearFn_opcodes, hw]
    · rw [h34, clearFn_jumpTables, hw]
    · rw [h34, clearFn_offset, hw]
  have hrel2 : List.Forall₂ EmitRel
      (serializeFunctionsBytecode o (pR2 BM sh o initState).1 []
        (pS7 BM sh o initState)).1
      (pR2 (serializePass BM sh o initState).1 sh o
        (finishLayout (serializePass BM sh o initState).2)).1 := by
    rw [← pR8_view]
    exact hrel
  have hpar := bc_parallel o hopt (pR2 BM sh o initState).1 [] []
    (pS7 BM sh o initState)
    (pS7 (serializePass BM sh o initState).1 sh o
      (finishLayout (serializePass BM sh o initState).2))
    (pR2 (serializePass BM sh o initState).1 sh o
      (finishLayout (serializePass BM sh o initState).2)).1
    hS7L hS7E hS7loc hneT (by intro kv hkv; cases hkv) hrel2
  obtain ⟨-, δ, hδL, hδE⟩ := hpar
  rw [← pR8_view] at hδL
  have hδE2 : (pR8 (serializePass BM sh o initState).1 sh o
      (finishLayout (serializePass BM sh o initState).2)).2.events =
      (pS7 (serializePass BM sh o initState).1 sh o
        (finishLayout (serializePass BM sh o initState).2)).events ++ δ := by
    rw [pR8_view]
    exact hδE
  obtain ⟨mf, hnd, hpw, hemits, hlook⟩ := bc_layout_main o hopt
    (pR2 BM sh o initState).1 [] (pS7 BM sh o initState) hS7L hneT
    (by intro kv hkv; cases hkv) (by simp) (by simp)
  rw [← pR8_view] at hemits hlook
  simp only [List.nil_append] at hnd hpw hemits hlook
  obtain ⟨-, -, -, ε7L, h7L, p7L⟩ := pS7_facts BM sh o initState
  obtain ⟨-, -, -, ε7E, h7E, p7E⟩ := pS7_facts
    (serializePass BM sh o initState).1 sh o
    (finishLayout (serializePass BM sh o initState).2)
  have h7Lbody : bodyEmitsOf (pS7 BM sh o initState).events = [] ∧
      bodyFlagsOf (pS7 BM sh o initState).events = [] := by
    rw [h7L]
    have hinit : initState.events = [] := rfl
    rw [hinit, List.nil_append]
    exact ⟨bodyEmitsOf_nonbody _ (fun e he => (p7L e he).2.1),
      bodyFlagsOf_nonbody _ (fun e he => (p7L e he).2.1)⟩
  have h7Ebody : bodyEmitsOf (pS7 (serializePass BM sh o initState).1 sh o
        (finishLayout (serializePass BM sh o initState).2)).events = [] ∧
      bodyFlagsOf (pS7 (serializePass BM sh o initState).1 sh o
        (finishLayout (serializePass BM sh o initState).2)).events = [] := by
    rw [h7E]
    have hfin : (finishLayout (serializePass BM sh o initState).2).events
        = [] := rfl
    rw [hfin, List.nil_append]
    exact ⟨bodyEmitsOf_nonbody _ (fun e he => (p7E e he).2.1),
      bodyFlagsOf_nonbody _ (fun e he => (p7E e he).2.1)⟩
  have hδbody : bodyEmitsOf δ = mf := by
    have hx := hemits
    rw [hδL, bodyEmitsOf_append, h7Lbody.1, List.nil_append] at hx
    exact hx
  have hdecomp : ∀ (B : BytecodeModule) (s0 : SerState),
      ∃ εT, (serializePass B sh o s0).2.events =
        (pR8 B sh o s0).2.events ++ εT ∧
        bodyEmitsOf εT = [] ∧ bodyFlagsOf εT = [] := by
    intro B s0
    obtain ⟨ε9, h9, p9⟩ := serializeFunctionInfoAll_sectionEv o
      (pR8 B sh o s0).1 (pR8 B sh o s0).2
    obtain ⟨εD, hD, pD⟩ := serializeDebugInfo_sectionEv
      o.stripDebugInfoSection o.stripDebugInfoSection B.debugInfo
      (pR9 B sh o s0).2
    refine ⟨ε9 ++ εD, ?_, ?_, ?_⟩
    · rw [serializePass_eq]
      show (serializeDebugInfo _ _ _).events = _
      rw [hD]
      rw [show (pR9 B sh o s0).2.events =
        (serializeFunctionInfoAll o (pR8 B sh o s0).1
          (pR8 B sh o s0).2).2.events from by rw [pR9_view]]
      rw [h9, List.append_assoc]
    · rw [bodyEmitsOf_append,
        bodyEmitsOf_nonbody _ (fun e he => (p9 e he).2.1),
        bodyEmitsOf_nonbody _ (fun e he => (pD e he).2.1)]
      rfl
    · rw [bodyFlagsOf_append,
        bodyFlagsOf_nonbody _ (fun e he => (p9 e he).2.1),
        bodyFlagsOf_nonbody _ (fun e he => (pD e he).2.1)]
      rfl
  obtain ⟨εTL, hTL, hTLe, hTLf⟩ := hdecomp BM initState
  obtain ⟨εTE, hTE, hTEe, hTEf⟩ := hdecomp
    (serializePass BM sh o initState).1
    (finishLayout (serializePass BM sh o initState).2)
  have hfinalEv : (serialize BM sh o).2.events =
      (pR8 (serializePass BM sh o initState).1 sh o
        (finishLayout (serializePass BM sh o initState).2)).2.events
        ++ εTE := by
    rw [serialize_eq]
    exact hTE
  refine ⟨mf, hnd, hpw, ?_, ?_, ?_, ?_⟩
  · rw [hfinalEv, bodyEmitsOf_append, hTEe, List.append_nil, hδE2,
      bodyEmitsOf_append, h7Ebody.1, List.nil_append, hδbody]
  · rw [hfinalEv, bodyFlagsOf_append, hTEf, List.append_nil, hδE2,
      bodyFlagsOf_append, h7Ebody.2, List.nil_append,
      hTL, bodyFlagsOf_append, hTLf, List.append_nil, hδL,
      bodyFlagsOf_append, h7Lbody.2, List.nil_append]
  · rw [hTL, bodyFlagsOf_append, hTLf, List.append_nil]
    have hflags := bc_flags_length o (pR2 BM sh o initState).1 []
      (pS7 BM sh o initState)
    rw [← pR8_view] at hflags
    rw [hflags, h7Lbody.2, hpr2B, List.length_map]
    simp
  · intro g hg
    have hfin : (serialize BM sh o).1.functionTable =
        (serializePass BM sh o initState).1.functionTable.map
          (clearFn o.stripDebugInfoSection) := by
      rw [serialize_eq]
      exact pass_emit_table _ sh o _ rfl
    rw [hfin, hB1ft] at hg
    obtain ⟨g3, hg3, hg34⟩ := List.mem_map.mp hg
    obtain ⟨g2, hg2, hR⟩ := forall₂_mem_right hinfoShape hg3
    obtain ⟨w, hw⟩ := hR
    have hkey : dedupKey g = dedupKey g2 := by
      rw [← hg34, clearFn_dedupKey, hw]
      rfl
    have hofs : g.offset = g2.offset := by
      rw [← hg34, clearFn_offset, hw]
    rw [hkey, hofs]
    exact hlook g2 hg2

-- ============================ Claims C1 and C4 ============================

/-- C1 (amended: every function's body is non-empty, i.e. its opcodes or
its jump tables are a non-empty list, so each freshly emitted body occupies
at least one byte of the stream).  With optimization enabled, any two
functions of the serialized module whose (opcodes, jumpTables) contents
coincide record equal offsets, and the trace of emitted bodies contains
exactly one emission carrying that content — at that shared offset; any two
functions whose contents differ record distinct offsets.  The amendment is
necessary: a function with empty opcodes and jump tables writes zero bytes,
so the following body starts at the same offset (see the counterexample). -/
theorem dedup_correctness (BM : BytecodeModule) (sh : List Nat)
    (o : BytecodeGenerationOptions)
    (hopt : o.optimizationEnabled = true)
    (hne : ∀ f ∈ BM.functionTable, f.opcodes ≠ [] ∨ f.jumpTables ≠ []) :
    ∀ g1 ∈ (serialize BM sh o).1.functionTable,
    ∀ g2 ∈ (serialize BM sh o).1.functionTable,
      (dedupKey g1 = dedupKey g2 →
        g1.offset = g2.offset ∧
        (bodyEmitsOf (serialize BM sh o).2.events).filter
            (fun kv => decide (kv.1 = dedupKey g1)) =
          [(dedupKey g1, g1.offset)]) ∧
      (dedupKey g1 ≠ dedupKey g2 → g1.offset ≠ g2.offset) := by
  obtain ⟨mf, hnd, hpw, hemits, -, -, hlook⟩ :=
    serialize_dedup_assembly BM sh o hopt hne
  intro g1 hg1 g2 hg2
  have h1 := hlook g1 hg1
  have h2 := hlook g2 hg2
  constructor
  · intro hk
    have h2' : lookupKey mf (dedupKey g1) = some g2.offset := by
      rw [hk]
      exact h2
    refine ⟨Option.some.inj (h1.symm.trans h2'), ?_⟩
    rw [hemits]
    exact filter_keys_singleton hnd h1
  · intro hk hoff
    apply hk
    rw [hoff] at h1
    exact lookup_inj hpw h1 h2

def sampleModC1 : BytecodeModule :=
  ⟨[⟨[1, 2, 3], [], [], ⟨0, 0⟩, false, false, 0, 0⟩,
    ⟨[1, 2, 3], [], [], ⟨0, 0⟩, false, false, 0, 0⟩,
    ⟨[9], [], [], ⟨0, 0⟩, false, false, 0, 0⟩], 0,
   [], [], [], [], [], [], [], [], [], [], 0, ⟨[], [], [], 0, []⟩, 0⟩

def sampleOptsC1 : BytecodeGenerationOptions := ⟨false, true, 0⟩

theorem dedup_correctness_witness :
    (sampleOptsC1.optimizationEnabled = true ∧
      (∀ f ∈ sampleModC1.functionTable,
        f.opcodes ≠ [] ∨ f.jumpTables ≠ [])) ∧
    (∀ g1 ∈ (serialize sampleModC1 [] sampleOptsC1).1.functionTable,
     ∀ g2 ∈ (serialize sampleModC1 [] sampleOptsC1).1.functionTable,
      (dedupKey g1 = dedupKey g2 →
        g1.offset = g2.offset ∧
        (bodyEmitsOf (serialize sampleModC1 [] sampleOptsC1).2.events).filter
            (fun kv => decide (kv.1 = dedupKey g1)) =
          [(dedupKey g1, g1.offset)]) ∧
      (dedupKey g1 ≠ dedupKey g2 → g1.offset ≠ g2.offset)) :=
  ⟨⟨rfl, by decide⟩,
    dedup_correctness sampleModC1 [] sampleOptsC1 rfl (by decide)⟩

def cexModC1 : BytecodeModule :=
  ⟨[⟨[], [], [], ⟨0, 0⟩, false, false, 0, 0⟩,
    ⟨[1], [], [], ⟨0, 0⟩, false, false, 0, 0⟩], 0,
   [], [], [], [], [], [], [], [], [], [], 0, ⟨[], [], [], 0, []⟩, 0⟩

def cexOptsC1 : BytecodeGenerationOptions := ⟨false, true, 0⟩

/-- C1 counterexample to the unamended claim: with optimization enabled, a
module holding one empty-bodied function and one function with opcodes [1]
serializes both to offset 128 — distinct (opcodes, jumpTables) contents,
identical recorded offsets, because the empty body writes zero bytes. -/
theorem dedup_correctness_cex :
    cexOptsC1.optimizationEnabled = true ∧
    (serialize cexModC1 [] cexOptsC1).1.functionTable.map
        (fun f => (dedupKey f, f.offset)) =
      [((([], []) : DedupKey), 128), ((([1], []) : DedupKey), 128)] :=
  ⟨rfl, by decide⟩

/-- C4 (amended: every function's body is non-empty, i.e. its opcodes or
its jump tables are a non-empty list).  With optimization enabled, the
EMIT pass's cheap reuse test `offset < loc` reproduces exactly the LAYOUT
pass's map-insertion outcomes: the per-function reuse-flag trace of the
final (emit) run equals that of the layout pass, flag by flag, with one
flag per function of the module.  The amendment is necessary: a reused
empty body has offset equal to loc, so EMIT re-emits it (see the
counterexample). -/
theorem emit_skip_matches_layout (BM : BytecodeModule) (sh : List Nat)
    (o : BytecodeGenerationOptions)
    (hopt : o.optimizationEnabled = true)
    (hne : ∀ f ∈ BM.functionTable, f.opcodes ≠ [] ∨ f.jumpTables ≠ []) :
    bodyFlagsOf (serialize BM sh o).2.events =
      bodyFlagsOf (serializePass BM sh o initState).2.events ∧
    (bodyFlagsOf (serialize BM sh o).2.events).length =
      BM.functionTable.length := by
  obtain ⟨mf, -, -, -, hfl, hlen, -⟩ :=
    serialize_dedup_assembly BM sh o hopt hne
  refine ⟨hfl, ?_⟩
  rw [hfl]
  exact hlen

def sampleModC4 : BytecodeModule :=
  ⟨[⟨[4, 5], [], [], ⟨0, 0⟩, false, false, 0, 0⟩,
    ⟨[4, 5], [], [], ⟨0, 0⟩, false, false, 0, 0⟩,
    ⟨[6], [7], [], ⟨0, 0⟩, false, false, 0, 0⟩], 0,
   [], [], [], [], [], [], [], [], [], [], 0, ⟨[], [], [], 0, []⟩, 0⟩

def sampleOptsC4 : BytecodeGenerationOptions := ⟨false, true, 0⟩

theorem emit_skip_matches_layout_witness :
    (sampleOptsC4.optimizationEnabled = true ∧
      (∀ f ∈ sampleModC4.functionTable,
        f.opcodes ≠ [] ∨ f.jumpTables ≠ [])) ∧
    (bodyFlagsOf (serialize sampleModC4 [] sampleOptsC4).2.events =
        bodyFlagsOf
          (serializePass sampleModC4 [] sampleOptsC4 initState).2.events ∧
      (bodyFlagsOf (serialize sampleModC4 [] sampleOptsC4).2.events).length =
        sampleModC4.functionTable.length) :=
  ⟨⟨rfl, by decide⟩,
    emit_skip_matches_layout sampleModC4 [] sampleOptsC4 rfl (by decide)⟩

def cexModC4 : BytecodeModule :=
  ⟨[⟨[], [], [], ⟨0, 0⟩, false, false, 0, 0⟩,
    ⟨[], [], [], ⟨0, 0⟩, false, false, 0, 0⟩], 0,
   [], [], [], [], [], [], [], [], [], [], 0, ⟨[], [], [], 0, []⟩, 0⟩

def cexOptsC4 : BytecodeGenerationOptions := ⟨false, true, 0⟩

/-- C4 counterexample to the unamended claim: with optimization enabled, a
module holding two empty-bodied functions deduplicates the second during
LAYOUT (reuse-flag trace [false, true]), but during EMIT the reused
function's offset equals the current position rather than being below it,
so EMIT emits both bodies (reuse-flag trace [false, false]) — the cheap
test misclassifies the deduplicated function. -/
theorem emit_skip_matches_layout_cex :
    cexOptsC4.optimizationEnabled = true ∧
    bodyFlagsOf (serializePass cexModC4 [] cexOptsC4 initState).2.events =
      [false, true] ∧
    bodyFlagsOf (serialize cexModC4 [] cexOptsC4).2.events =
      [false, false] :=
  ⟨rfl, by decide, by decide⟩

end Hermes
